import Mathlib

/-!
Shallow embedding of the optimization core of the `ams` dispatch package:
the AC-OPF callback functions `opf_hessfcn`, `opf_consfcn`, `opf_costfcn`,
the callback registry `add_userfcn` (all in
`src/ams/pypower/routines/opf_fcns.py`), and the declarative-to-convex
compiler `OModel.parse_constr` / `OModel.parse_obj` / `OModel.setup`
(in `src/ams/opt/omodel.py`).

Numbers are embedded as rationals; complex quantities as pairs of rationals;
the few transcendental numpy primitives the code touches (cos, sin, complex
magnitude) are abstracted into a `NumEnv` record, since none of the verified
properties depend on their values.  Fallible Python code is embedded in the
`Except PyErr` monad; a Python `NameError` on an unbound module-level name,
an `UnboundLocalError` on a local that was never assigned, and a `ValueError`
are the error cases that actually arise in this module.
-/

/-- Error classes raised by the embedded Python code. -/
inductive PyErr where
  | nameError (n : String)
  | unboundLocal (n : String)
  | valueError (msg : String)
deriving DecidableEq

/-- Complex number with rational real and imaginary parts, embedding the
numpy complex values appearing in the OPF evaluators. -/
structure CQ where
  re : ℚ
  im : ℚ
deriving DecidableEq

namespace CQ

/-- Zero complex value. -/
def zero : CQ := ⟨0, 0⟩

instance : Add CQ := ⟨fun a b => ⟨a.re + b.re, a.im + b.im⟩⟩

instance : Sub CQ := ⟨fun a b => ⟨a.re - b.re, a.im - b.im⟩⟩

instance : Mul CQ := ⟨fun a b => ⟨a.re * b.re - a.im * b.im, a.re * b.im + a.im * b.re⟩⟩

/-- Complex conjugate. -/
def cconj (a : CQ) : CQ := ⟨a.re, -a.im⟩

/-- Squared magnitude, the exact value of `z * conj(z)` (whose imaginary
part is zero). -/
def normSq (a : CQ) : ℚ := a.re * a.re + a.im * a.im

/-- Multiplication by the imaginary unit `1j`. -/
def mulI (a : CQ) : CQ := ⟨-a.im, a.re⟩

/-- Scaling by a rational. -/
def smul (c : ℚ) (a : CQ) : CQ := ⟨c * a.re, c * a.im⟩

end CQ

/-- Extended rational used for the branch-flow residuals: `opf_consfcn`
replaces a zero rating by `numpy.Inf`, so residual entries can be `-Inf`. -/
inductive ERat where
  | ninf
  | fin (q : ℚ)
  | pinf
deriving DecidableEq

/-- Subtraction of an extended bound from a finite metric value, with the
IEEE semantics numpy applies here: `finite - Inf = -Inf`. -/
def esubFin (a : ℚ) : ERat → ERat
  | ERat.ninf => ERat.pinf
  | ERat.fin m => ERat.fin (a - m)
  | ERat.pinf => ERat.ninf

/-- Whether an extended value is at most zero (a constraint residual that can
never be binding is `-Inf`, hence nonpositive). -/
def eratNonpos : ERat → Bool
  | ERat.ninf => true
  | ERat.fin q => decide (q ≤ 0)
  | ERat.pinf => false

/-- Real vector. -/
abbrev QVec := List ℚ

/-- Real (dense) matrix, row major. -/
abbrev QMat := List (List ℚ)

/-- Complex vector. -/
abbrev CVec := List CQ

/-- Complex (dense) matrix, row major. -/
abbrev CMat := List (List CQ)

/-- Dot product of two rational vectors. -/
def qdot (a b : QVec) : ℚ := (List.zipWith (· * ·) a b).sum

/-- Matrix-vector product. -/
def rMatVec (m : QMat) (v : QVec) : QVec := m.map (fun row => qdot row v)

/-- Number of columns of a dense matrix (taken from its first row). -/
def matCols (m : QMat) : ℕ := (m.headD []).length

/-- Transpose into a given number of rows, reading absent entries as `0`
(this is also how a `lil_matrix` of fixed shape is transposed). -/
def transposeTo (n : ℕ) (m : QMat) : QMat :=
  (List.range n).map (fun j => m.map (fun row => row.getD j 0))

/-- Plain transpose. -/
def transposeQ (m : QMat) : QMat := transposeTo (matCols m) m

/-- Matrix product. -/
def rMatMul (a b : QMat) : QMat :=
  a.map (fun row => (transposeQ b).map (fun col => qdot row col))

/-- Vector-matrix product `v * M` (numpy `dot` of a 1-D array with a matrix). -/
def vecMatQ (v : QVec) (m : QMat) : QVec := rMatVec (transposeQ m) v

/-- Elementwise sum of two matrices. -/
def rMatAdd (a b : QMat) : QMat := List.zipWith (List.zipWith (· + ·)) a b

/-- Scale a matrix. -/
def rScale (c : ℚ) (m : QMat) : QMat := m.map (fun row => row.map (fun x => c * x))

/-- Elementwise sum of two vectors. -/
def vadd (a b : QVec) : QVec := List.zipWith (· + ·) a b

/-- Elementwise difference of two vectors. -/
def vsub (a b : QVec) : QVec := List.zipWith (· - ·) a b

/-- Zero matrix of the given shape. -/
def zeroMat (r c : ℕ) : QMat := List.replicate r (List.replicate c 0)

/-- Diagonal matrix of a vector. -/
def rDiag (v : QVec) : QMat :=
  (List.range v.length).map (fun i =>
    (List.range v.length).map (fun j => if i = j then v.getD i 0 else 0))

/-- Write `vals` into positions `cols` of a length-`n` zero row: the effect of
assigning a value list into an indexed slice of a fresh numpy row. -/
def scatterRow (n : ℕ) (cols : List ℕ) (vals : QVec) : QVec :=
  (cols.zip vals).foldl (fun acc p => acc.set p.1 p.2) (List.replicate n 0)

/-- Add `v` to entry `(i, j)` of a dense matrix. -/
def matAddAt (m : QMat) (i j : ℕ) (v : ℚ) : QMat :=
  m.set i ((m.getD i []).set j ((m.getD i []).getD j 0 + v))

/-- Dense form of `csr_matrix((vals, (idxs, idxs)), (n, n))`: a sparse
diagonal scatter (duplicate indices accumulate, as in scipy). -/
def diagScatter (n : ℕ) (idxs : List ℕ) (vals : QVec) : QMat :=
  (idxs.zip vals).foldl (fun acc p => matAddAt acc p.1 p.1 p.2) (zeroMat n n)

/-- Dot product of complex vectors (no conjugation, plain `sum aᵢ·bᵢ`). -/
def cdot (a b : CVec) : CQ := (List.zipWith (· * ·) a b).foldl (· + ·) CQ.zero

/-- Complex matrix-vector product. -/
def cMatVec (m : CMat) (v : CVec) : CVec := m.map (fun row => cdot row v)

/-- Columns of a complex matrix. -/
def cMatCols (m : CMat) : ℕ := (m.headD []).length

/-- Complex transpose into a given number of rows. -/
def cTransposeTo (n : ℕ) (m : CMat) : CMat :=
  (List.range n).map (fun j => m.map (fun row => row.getD j CQ.zero))

/-- Complex matrix product. -/
def cMatMul (a b : CMat) : CMat :=
  a.map (fun row => (cTransposeTo (cMatCols b) b).map (fun col => cdot row col))

/-- Elementwise sum of complex matrices. -/
def cMatAdd (a b : CMat) : CMat := List.zipWith (List.zipWith (· + ·)) a b

/-- Elementwise difference of complex matrices. -/
def cMatSub (a b : CMat) : CMat := List.zipWith (List.zipWith (· - ·)) a b

/-- Conjugate every entry. -/
def cConjMat (m : CMat) : CMat := m.map (fun row => row.map CQ.cconj)

/-- Multiply every entry by `1j`. -/
def cMulIMat (m : CMat) : CMat := m.map (fun row => row.map CQ.mulI)

/-- Complex diagonal matrix of a vector. -/
def cDiag (v : CVec) : CMat :=
  (List.range v.length).map (fun i =>
    (List.range v.length).map (fun j => if i = j then v.getD i CQ.zero else CQ.zero))

/-- Real parts of a complex matrix. -/
def reMat (m : CMat) : QMat := m.map (fun row => row.map CQ.re)

/-- Imaginary parts of a complex matrix. -/
def imMat (m : CMat) : QMat := m.map (fun row => row.map CQ.im)

/-- Zero the imaginary parts (the `.real` conversion numpy applies before
the real-power Jacobian kernel, kept as a complex matrix). -/
def realifyMat (m : CMat) : CMat := m.map (fun row => row.map (fun c => ⟨c.re, 0⟩))

/-- Zero the imaginary parts of a vector. -/
def realifyVec (v : CVec) : CVec := v.map (fun c => (⟨c.re, 0⟩ : CQ))

/-- Dense `nl × nb` matrix with `vals[k]` at `(k, pos[k])`: the embedding of
`csr_matrix((vals, (arange(nl), pos)), (nl, nb))`. -/
def rowIdxMat (nl nb : ℕ) (pos : List ℕ) (vals : CVec) : CMat :=
  (List.range nl).map (fun k =>
    (List.range nb).map (fun j =>
      if pos.getD k 0 = j then vals.getD k CQ.zero else CQ.zero))

/-- Contiguous index range `[i, j)`, the embedding of `arange(i, j)`. -/
def idxRange (i j : ℕ) : List ℕ := List.range' i (j - i)

/-- Python slice `x[i:j]`. -/
def pySlice (x : List ℚ) (i j : ℕ) : List ℚ := (x.drop i).take (j - i)

/-! ## Data model

The network tables of the PYPOWER case dict, restricted to the columns the
embedded functions actually read (`PG`, `QG`, `GEN_BUS` of `gen`; `F_BUS`,
`T_BUS`, `RATE_A` of `branch`; the demand columns of `bus`; `MODEL`,
`NCOST` and the coefficient block of `gencost`). -/

/-- One bus row: real and reactive demand. -/
structure BusR where
  pd : ℚ
  qd : ℚ
deriving DecidableEq

/-- One generator row: bus index (`GEN_BUS`), active and reactive output
(`PG`, `QG`, in MW / MVAr). -/
structure GenR where
  bus : ℕ
  pg : ℚ
  qg : ℚ
deriving DecidableEq

/-- One branch row: endpoint bus indices and the `RATE_A` flow rating. -/
structure BranchR where
  fbus : ℕ
  tbus : ℕ
  rateA : ℚ
deriving DecidableEq

/-- One generator-cost row: `MODEL` selector, startup/shutdown costs,
`NCOST`, and the coefficient block (degree-decreasing for polynomial rows). -/
structure GenCostRow where
  model : ℚ
  startup : ℚ
  shutdown : ℚ
  ncost : ℕ
  cost : List ℚ
deriving DecidableEq

/-- The `MODEL` value flagging a polynomial cost row (`idx_cost.POLYNOMIAL`). -/
def POLYNOMIAL : ℚ := 2

/-- The generalized-cost weight matrix `N` as the evaluators see it: absent
(`None`), a dense array, or a scipy sparse matrix carrying its entries.
Only the sparse form satisfies `issparse`. -/
inductive GCostN where
  | absent
  | dense (m : QMat)
  | sparseM (m : QMat)
deriving DecidableEq

/-- Embedding of `scipy.sparse.issparse`. -/
def issparseN : GCostN → Bool
  | GCostN.sparseM _ => true
  | _ => false

/-- Number of stored nonzeros of a matrix (`.nnz` of the sparse form). -/
def nnzM (m : QMat) : ℕ := (m.map (fun row => (row.filter (fun x => x ≠ 0)).length)).sum

/-- Generalized cost parameters, the fields of `om.get_cost_params()`. -/
structure CostParams where
  N : GCostN
  Cw : QVec
  H : QMat
  dd : QVec
  rh : QVec
  kk : QVec
  mm : QVec
deriving DecidableEq

/-- Index map of the state-vector blocks, the `vv` part of `om.get_idx()`:
start (`i1`) and end (`iN`) offset of the `Va`, `Vm`, `Pg`, `Qg` and `y`
blocks. -/
structure VarIdx where
  i1Va : ℕ
  iNVa : ℕ
  i1Vm : ℕ
  iNVm : ℕ
  i1Pg : ℕ
  iNPg : ℕ
  i1Qg : ℕ
  iNQg : ℕ
  i1y : ℕ
  iNy : ℕ
deriving DecidableEq

/-- The PYPOWER case dict (`ppc`) as unpacked by the evaluators. -/
structure PPC where
  baseMVA : ℚ
  bus : List BusR
  gen : List GenR
  branch : List BranchR
  gencost : List GenCostRow
deriving DecidableEq

/-- The OPF model object `om`, restricted to what the evaluators query:
`get_ppc()`, `get_cost_params()`, `get_idx()` and `getN('var', 'y')`. -/
structure OPFModel where
  ppc : PPC
  vv : VarIdx
  cp : CostParams
  ny : ℕ
deriving DecidableEq

/-- Abstraction of the transcendental numpy primitives used on rationals:
`cos`, `sin` (for `exp(1j*Va)`) and complex magnitude (for `abs(V)` inside
the derivative kernels).  None of the verified properties depend on their
values, so they are carried as an explicit environment. -/
structure NumEnv where
  qcos : ℚ → ℚ
  qsin : ℚ → ℚ
  cabs : CQ → ℚ

/-- The Lagrange multiplier argument of `opf_hessfcn`: the dict with keys
`eqnonlin` and `ineqnonlin`. -/
structure Lmbda where
  eqnonlin : QVec
  ineqnonlin : QVec
deriving DecidableEq

/-- Voltage reconstruction `V = Vm * exp(1j * Va)` from the state vector. -/
def stateV (env : NumEnv) (x : QVec) (vv : VarIdx) : CVec :=
  List.zipWith (fun vm va => (⟨vm * env.qcos va, vm * env.qsin va⟩ : CQ))
    (pySlice x vv.i1Vm vv.iNVm) (pySlice x vv.i1Va vv.iNVa)

/-- Modelled from the spec: polynomial cost evaluation `polycost` from
`ams.pypower.polycost`, which is not under `src/`.  Section 4.4 of the spec
describes it as the polynomial generator cost and its first and second
derivatives; the row stores `ncost` coefficients in degree-decreasing order.
`polyDerivCoeffs` differentiates such a coefficient list once. -/
def polyDerivCoeffs (cs : List ℚ) : List ℚ :=
  List.zipWith (fun c k => c * k)
    (cs.dropLast)
    ((List.range cs.length.pred).map (fun k => ((cs.length.pred - k : ℕ) : ℚ)))

/-- Horner evaluation of a degree-decreasing coefficient list. -/
def polyEval (cs : List ℚ) (x : ℚ) : ℚ := cs.foldl (fun a c => a * x + c) 0

/-- Modelled from the spec: `polycost(row, x, der)` evaluates the `der`-th
derivative of the polynomial cost row at `x` (see `polyDerivCoeffs`). -/
def polycost (row : GenCostRow) (x : ℚ) (der : ℕ) : ℚ :=
  polyEval (polyDerivCoeffs^[der] (row.cost.take row.ncost)) x

/-- Modelled from the spec: `totcost(row, x)` is the total polynomial cost,
i.e. the zeroth derivative. -/
def totcost (row : GenCostRow) (x : ℚ) : ℚ := polycost row x 0

/-- Modelled from the spec: `makeSbus(baseMVA, bus, gen)` from
`ams.pypower.make` (not under `src/`): the net complex power injected at each
bus in p.u. — generator injections summed onto their buses minus demand,
divided by `baseMVA` (spec 4.3: recompute generator injections from the
state blocks and form the injected power entering the mismatch). -/
def makeSbus (baseMVA : ℚ) (bus : List BusR) (gen : List GenR) : CVec :=
  (List.range bus.length).map (fun b =>
    let inj := gen.foldl
      (fun s g => if g.bus = b then s + (⟨g.pg, g.qg⟩ : CQ) else s) CQ.zero
    let d := bus.getD b ⟨0, 0⟩
    CQ.smul (1 / baseMVA) (inj - (⟨d.pd, d.qd⟩ : CQ)))

/-- The in-place write `gen[:, PG] = Pg * baseMVA; gen[:, QG] = Qg * baseMVA`
performed by `opf_consfcn` (lines 315-316): the PG/QG columns of the gen
table are overwritten with the state-vector generation blocks scaled to
physical units. -/
def writeGenPQ (gen : List GenR) (pg qg : QVec) (baseMVA : ℚ) : List GenR :=
  (List.range gen.length).map (fun i =>
    let g := gen.getD i ⟨0, 0, 0⟩
    { g with pg := (pg.getD i 0) * baseMVA, qg := (qg.getD i 0) * baseMVA })

/-! ## Derivative kernels

These functions live in `ams.pypower.make`, which is not under `src/`; they
are modelled from the spec (4.3: "sparse Jacobians `dg`, `dh` of both
residual vectors with respect to the angle/magnitude ... blocks") using the
standard polar-coordinate power-flow derivative formulas the spec's Jacobian
language refers to.  No verified claim depends on their entry values. -/

/-- Modelled from the spec: `dSbus_dV(Ybus, V)` — Jacobian of the injected
bus power with respect to voltage magnitude and angle; returns
`(dSbus_dVm, dSbus_dVa)` in the order the call site unpacks. -/
def dSbus_dV (env : NumEnv) (Ybus : CMat) (V : CVec) : CMat × CMat :=
  let Ibus := cMatVec Ybus V
  let Vnorm := V.map (fun v => CQ.smul (1 / env.cabs v) v)
  let diagV := cDiag V
  let diagI := cDiag Ibus
  let diagVn := cDiag Vnorm
  let dS_dVm := cMatAdd (cMatMul diagV (cConjMat (cMatMul Ybus diagVn)))
    (cMatMul (cConjMat diagI) diagVn)
  let dS_dVa := cMulIMat (cMatMul diagV (cConjMat (cMatSub diagI (cMatMul Ybus diagV))))
  (dS_dVm, dS_dVa)

/-- Modelled from the spec: `dIbr_dV(branch, Yf, Yt, V)` — Jacobian of the
complex branch currents with respect to voltage, plus the currents. -/
def dIbr_dV (env : NumEnv) (Yf Yt : CMat) (V : CVec) :
    CMat × CMat × CMat × CMat × CVec × CVec :=
  let Vnorm := V.map (fun v => CQ.smul (1 / env.cabs v) v)
  let diagV := cDiag V
  let diagVn := cDiag Vnorm
  (cMatMul Yf (cMulIMat diagV), cMatMul Yf diagVn,
   cMatMul Yt (cMulIMat diagV), cMatMul Yt diagVn,
   cMatVec Yf V, cMatVec Yt V)

/-- Modelled from the spec: `dSbr_dV(branch, Yf, Yt, V)` — Jacobian of the
complex branch power flows with respect to voltage, plus the flows. -/
def dSbr_dV (env : NumEnv) (branch : List BranchR) (Yf Yt : CMat) (V : CVec) :
    CMat × CMat × CMat × CMat × CVec × CVec :=
  let nl := branch.length
  let nb := V.length
  let f := branch.map BranchR.fbus
  let t := branch.map BranchR.tbus
  let If := cMatVec Yf V
  let It := cMatVec Yt V
  let Vf := f.map (fun i => V.getD i CQ.zero)
  let Vt := t.map (fun i => V.getD i CQ.zero)
  let Vnorm := V.map (fun v => CQ.smul (1 / env.cabs v) v)
  let diagV := cDiag V
  let diagVn := cDiag Vnorm
  let dSf_dVa := cMulIMat (cMatSub
    (cMatMul (cConjMat (cDiag If)) (rowIdxMat nl nb f Vf))
    (cMatMul (cDiag Vf) (cConjMat (cMatMul Yf diagV))))
  let dSf_dVm := cMatAdd
    (cMatMul (cDiag Vf) (cConjMat (cMatMul Yf diagVn)))
    (cMatMul (cConjMat (cDiag If)) (rowIdxMat nl nb f (f.map (fun i => Vnorm.getD i CQ.zero))))
  let dSt_dVa := cMulIMat (cMatSub
    (cMatMul (cConjMat (cDiag It)) (rowIdxMat nl nb t Vt))
    (cMatMul (cDiag Vt) (cConjMat (cMatMul Yt diagV))))
  let dSt_dVm := cMatAdd
    (cMatMul (cDiag Vt) (cConjMat (cMatMul Yt diagVn)))
    (cMatMul (cConjMat (cDiag It)) (rowIdxMat nl nb t (t.map (fun i => Vnorm.getD i CQ.zero))))
  let Sf := List.zipWith (fun v i => v * CQ.cconj i) Vf If
  let St := List.zipWith (fun v i => v * CQ.cconj i) Vt It
  (dSf_dVa, dSf_dVm, dSt_dVa, dSt_dVm, Sf, St)

/-- Modelled from the spec: `dAbr_dV` — chain rule taking the branch-flow
Jacobians to the Jacobians of the squared flow magnitudes. -/
def dAbr_dV (dFf_dVa dFf_dVm dFt_dVa dFt_dVm : CMat) (Ff Ft : CVec) :
    QMat × QMat × QMat × QMat :=
  let dAf_dVa := rScale 2 (rMatAdd
    (rMatMul (rDiag (Ff.map CQ.re)) (reMat dFf_dVa))
    (rMatMul (rDiag (Ff.map CQ.im)) (imMat dFf_dVa)))
  let dAf_dVm := rScale 2 (rMatAdd
    (rMatMul (rDiag (Ff.map CQ.re)) (reMat dFf_dVm))
    (rMatMul (rDiag (Ff.map CQ.im)) (imMat dFf_dVm)))
  let dAt_dVa := rScale 2 (rMatAdd
    (rMatMul (rDiag (Ft.map CQ.re)) (reMat dFt_dVa))
    (rMatMul (rDiag (Ft.map CQ.im)) (imMat dFt_dVa)))
  let dAt_dVm := rScale 2 (rMatAdd
    (rMatMul (rDiag (Ft.map CQ.re)) (reMat dFt_dVm))
    (rMatMul (rDiag (Ft.map CQ.im)) (imMat dFt_dVm)))
  (dAf_dVa, dAf_dVm, dAt_dVa, dAt_dVm)

/-! ## Nonlinear Constraint and Jacobian Builder: `opf_consfcn` -/

/-- Horizontal stack of two equal-height matrices. -/
def hstack2 (a b : QMat) : QMat := List.zipWith (· ++ ·) a b

/-- Horizontal stack of four equal-height matrices. -/
def hstack4 (a b c d : QMat) : QMat := hstack2 (hstack2 a b) (hstack2 c d)

/-- The connection matrix `sparse((-ones(ng), (gen[:, GEN_BUS], range(ng))), (nb, ng))`
of `opf_consfcn` line 370. -/
def negCg (nb : ℕ) (gen : List GenR) : QMat :=
  (List.range nb).map (fun b =>
    (List.range gen.length).map (fun j =>
      if (gen.getD j ⟨0, 0, 0⟩).bus = b then (-1 : ℚ) else 0))

/-- Result record of `opf_consfcn`.  The Python function returns
`(h, g, dh, dg)` and, through the in-place write on the `gen` table, an
updated case dict; `ppcOut` carries that final state of `ppc`. -/
structure ConsOut where
  h : List ERat
  g : QVec
  dh : Option QMat
  dg : QMat
  ppcOut : PPC
deriving DecidableEq

/-- Embedding of `opf_consfcn(x, om, Ybus, Yf, Yt, ppopt, il)`
(opf_fcns.py lines 261-414).  `flowLim` is `ppopt['OPF_FLOW_LIM']`
(2 = current magnitude, 1 = real power, anything else = apparent power). -/
def opf_consfcn (env : NumEnv) (x : QVec) (om : OPFModel) (Ybus Yf Yt : CMat)
    (flowLim : ℕ) (il? : Option (List ℕ)) : ConsOut :=
  let ppc := om.ppc
  let baseMVA := ppc.baseMVA
  let bus := ppc.bus
  let branch := ppc.branch
  let vv := om.vv
  let nb := bus.length
  let nl := branch.length
  let ng := ppc.gen.length
  let nxyz := x.length
  let il := il?.getD (List.range nl)
  let nl2 := il.length
  let Pg := pySlice x vv.i1Pg vv.iNPg
  let Qg := pySlice x vv.i1Qg vv.iNQg
  let gen := writeGenPQ ppc.gen Pg Qg baseMVA
  let Sbus := makeSbus baseMVA bus gen
  let V := stateV env x vv
  let mis := List.zipWith (· - ·)
    (List.zipWith (· * ·) V ((cMatVec Ybus V).map CQ.cconj)) Sbus
  let g := mis.map CQ.re ++ mis.map CQ.im
  let branchIl := il.map (fun k => branch.getD k ⟨0, 0, 0⟩)
  let h : List ERat :=
    if 0 < nl2 then
      let flow_max : List ERat := branchIl.map (fun b =>
        let fm := (b.rateA / baseMVA) ^ 2
        if fm = 0 then ERat.pinf else ERat.fin fm)
      if flowLim = 2 then
        let If := cMatVec Yf V
        let It := cMatVec Yt V
        List.zipWith (fun c fm => esubFin (CQ.normSq c) fm) If flow_max ++
          List.zipWith (fun c fm => esubFin (CQ.normSq c) fm) It flow_max
      else
        let Sf := List.zipWith (fun b c => V.getD b.fbus CQ.zero * CQ.cconj c)
          branchIl (cMatVec Yf V)
        let St := List.zipWith (fun b c => V.getD b.tbus CQ.zero * CQ.cconj c)
          branchIl (cMatVec Yt V)
        if flowLim = 1 then
          List.zipWith (fun s fm => esubFin (s.re ^ 2) fm) Sf flow_max ++
            List.zipWith (fun s fm => esubFin (s.re ^ 2) fm) St flow_max
        else
          List.zipWith (fun s fm => esubFin (CQ.normSq s) fm) Sf flow_max ++
            List.zipWith (fun s fm => esubFin (CQ.normSq s) fm) St flow_max
    else []
  let iVa := idxRange vv.i1Va vv.iNVa
  let iVm := idxRange vv.i1Vm vv.iNVm
  let iPg := idxRange vv.i1Pg vv.iNPg
  let iQg := idxRange vv.i1Qg vv.iNQg
  let iVaVmPgQg := iVa ++ iVm ++ iPg ++ iQg
  let dSdV := dSbus_dV env Ybus V
  let blank := zeroMat nb ng
  let dgBlock := hstack4 (reMat dSdV.2) (reMat dSdV.1) (negCg nb gen) blank ++
    hstack4 (imMat dSdV.2) (imMat dSdV.1) blank (negCg nb gen)
  let dgBefore := (List.range (2 * nb)).map (fun r =>
    scatterRow nxyz iVaVmPgQg (dgBlock.getD r []))
  let dg := transposeTo nxyz dgBefore
  let dh : Option QMat :=
    if 0 < nl2 then
      let kern :=
        if flowLim = 2 then dIbr_dV env Yf Yt V
        else dSbr_dV env branchIl Yf Yt V
      let (dFf_dVa, dFf_dVm, dFt_dVa, dFt_dVm, Ff, Ft) :=
        if flowLim = 1 then
          (realifyMat kern.1, realifyMat kern.2.1, realifyMat kern.2.2.1,
           realifyMat kern.2.2.2.1, realifyVec kern.2.2.2.2.1,
           realifyVec kern.2.2.2.2.2)
        else kern
      let dA := dAbr_dV dFf_dVa dFf_dVm dFt_dVa dFt_dVm Ff Ft
      let dhBlock := hstack2 dA.1 dA.2.1 ++ hstack2 dA.2.2.1 dA.2.2.2
      let dhBefore := (List.range (2 * nl2)).map (fun r =>
        scatterRow nxyz (iVa ++ iVm) (dhBlock.getD r []))
      some (transposeTo nxyz dhBefore)
    else none
  { h := h, g := g, dh := dh, dg := dg, ppcOut := { ppc with gen := gen } }

/-! ## Generalized cost block

Lines 477-497 of `opf_costfcn` and lines 139-159 of `opf_hessfcn` compute
the same intermediate quantities from the generalized cost structure; they
are shared here.  The block is entered only under `issparse(N) and N.nnz > 0`;
its locals are otherwise left unassigned. -/

/-- Assign `vals` into positions `idxs` of vector `v` (numpy fancy-index
assignment `v[idxs] = vals`). -/
def assignAt (v : QVec) (idxs : List ℕ) (vals : QVec) : QVec :=
  (idxs.zip vals).foldl (fun a p => a.set p.1 p.2) v

/-- Locals of the generalized-cost block (`w`, `HwC`, `AA`, and the
matrices needed by the Hessian term). -/
structure GCW where
  nw : ℕ
  w : QVec
  HwC : QVec
  AA : QMat
  Mm : QMat
  QQ : QMat
  Nm : QMat
deriving DecidableEq

/-- The generalized-cost block (`r = Nx - rh`, dead-zone classification,
`w`, `H*w + Cw`, `AA`), exactly as in `opf_costfcn` lines 478-497 and
`opf_hessfcn` lines 140-159. -/
def gcCompute (x : QVec) (cp : CostParams) (Nm : QMat) : GCW :=
  let nw := Nm.length
  let r := vsub (rMatVec Nm x) cp.rh
  let iLT := (List.range nw).filter (fun i => decide (r.getD i 0 < -(cp.kk.getD i 0)))
  let iEQ := (List.range nw).filter (fun i =>
    decide (r.getD i 0 = 0) && decide (cp.kk.getD i 0 = 0))
  let iGT := (List.range nw).filter (fun i => decide (r.getD i 0 > cp.kk.getD i 0))
  let iND := iLT ++ iEQ ++ iGT
  let iL := (List.range nw).filter (fun i => decide (cp.dd.getD i 0 = 1))
  let iQ := (List.range nw).filter (fun i => decide (cp.dd.getD i 0 = 2))
  let LL := diagScatter nw iL (List.replicate iL.length 1)
  let QQ := diagScatter nw iQ (List.replicate iQ.length 1)
  let kbar := rMatVec (diagScatter nw iND
    (List.replicate iLT.length (1 : ℚ) ++ List.replicate iEQ.length 0 ++
      List.replicate iGT.length (-1 : ℚ))) cp.kk
  let rr := vadd r kbar
  let Mm := diagScatter nw iND (iND.map (fun i => cp.mm.getD i 0))
  let diagrr := diagScatter nw (List.range nw) rr
  let w := rMatVec (rMatMul Mm (rMatAdd LL (rMatMul QQ diagrr))) rr
  let HwC := vadd (rMatVec cp.H w) cp.Cw
  let AA := rMatMul (rMatMul (transposeQ Nm) Mm)
    (rMatAdd LL (rScale 2 (rMatMul QQ diagrr)))
  { nw := nw, w := w, HwC := HwC, AA := AA, Mm := Mm, QQ := QQ, Nm := Nm }

/-- The generalized-cost Hessian term
`AA * H * AA.T + 2 * N.T * M * QQ * diag(HwC) * N`
(`opf_costfcn` lines 565-566, `opf_hessfcn` lines 161-162). -/
def gcHessTerm (g : GCW) (H : QMat) : QMat :=
  rMatAdd (rMatMul (rMatMul g.AA H) (transposeQ g.AA))
    (rScale 2 (rMatMul (rMatMul (rMatMul (rMatMul (transposeQ g.Nm) g.Mm) g.QQ)
      (diagScatter g.nw (List.range g.nw) g.HwC)) g.Nm))

/-- All numeric entries of a gencost row, in column order (for numpy
elementwise truthiness). -/
def rowVals (r : GenCostRow) : List ℚ :=
  r.model :: r.startup :: r.shutdown :: ((r.ncost : ℚ)) :: r.cost

/-- Embedding of `np.any(qcost)` (elementwise): some entry is nonzero. -/
def npAnyRows (m : List GenCostRow) : Bool :=
  m.any (fun r => (rowVals r).any (fun q => decide (q ≠ 0)))

/-- Embedding of the builtin `any(qcost)` over a 2-D numpy array
(`opf_costfcn` line 556): iterating yields the rows, and `bool()` of a row
with more than one entry raises
`ValueError: The truth value of an array ... is ambiguous`; a gencost row
always has at least four entries, and `any` of an empty array is `False`. -/
def pyAnyRows : List GenCostRow → Except PyErr Bool
  | [] => Except.ok false
  | _ :: _ => Except.error (PyErr.valueError
      "The truth value of an array with more than one element is ambiguous.")

/-- Result of `opf_costfcn`: objective value, gradient, and the Hessian when
`return_hessian` was requested. -/
structure CostOut where
  f : ℚ
  df : QVec
  d2f : Option QMat
deriving DecidableEq

/-- Embedding of `opf_costfcn(x, om, return_hessian)` (opf_fcns.py lines
418-568).  The only fallible steps are the builtin `any(qcost)` call on
line 556 and the generalized-cost Hessian block on lines 564-566, whose
guard `N is not None and issparse(N)` omits the `N.nnz > 0` check under
which the locals `AA`, `HwC`, ... were assigned: a sparse all-zero `N`
reaches line 565 with `AA` unassigned. -/
def opf_costfcn (x : QVec) (om : OPFModel) (return_hessian : Bool) :
    Except PyErr CostOut := do
  let ppc := om.ppc
  let baseMVA := ppc.baseMVA
  let gencost := ppc.gencost
  let cp := om.cp
  let vv := om.vv
  let ng := ppc.gen.length
  let ny := om.ny
  let nxyz := x.length
  let Pg := pySlice x vv.i1Pg vv.iNPg
  let Qg := pySlice x vv.i1Qg vv.iNQg
  let dRow : GenCostRow := ⟨0, 0, 0, 0, []⟩
  let ipol := (List.range gencost.length).filter
    (fun i => decide ((gencost.getD i dRow).model = POLYNOMIAL))
  let xx := (Pg ++ Qg).map (fun v => v * baseMVA)
  let f := if ipol.any (fun i => decide (i ≠ 0)) then
      (ipol.map (fun i => totcost (gencost.getD i dRow) (xx.getD i 0))).sum
    else 0
  let ccost := if 0 < ny then
      scatterRow nxyz (idxRange vv.i1y vv.iNy) (List.replicate ny 1)
    else List.replicate nxyz 0
  let f := if 0 < ny then f + qdot ccost x else f
  let gc : Option GCW := match cp.N with
    | GCostN.sparseM Nm => if 0 < nnzM Nm then some (gcCompute x cp Nm) else none
    | _ => none
  let f := match gc with
    | some g => f + qdot (vecMatQ g.w cp.H) g.w / 2 + qdot cp.Cw g.w
    | none => f
  let iPg := idxRange vv.i1Pg vv.iNPg
  let iQg := idxRange vv.i1Qg vv.iNQg
  let df_dPgQg := assignAt (List.replicate (2 * ng) 0) ipol
    (ipol.map (fun i => baseMVA * polycost (gencost.getD i dRow) (xx.getD i 0) 1))
  let df := scatterRow nxyz (iPg ++ iQg) df_dPgQg
  let df := vadd df ccost
  let df := match gc with
    | some g => vadd df (rMatVec g.AA g.HwC)
    | none => df
  if ¬ return_hessian then
    Except.ok { f := f, df := df, d2f := none }
  else do
    let pcost := gencost.take ng
    let qcost := if ng < gencost.length then (gencost.drop (ng + 1)).take (ng - 1)
      else []
    let ipolp := (List.range pcost.length).filter
      (fun i => decide ((pcost.getD i dRow).model = POLYNOMIAL))
    let d2f_dPg2 := assignAt (List.replicate ng 0) ipolp
      (ipolp.map (fun i =>
        baseMVA ^ 2 * polycost (pcost.getD i dRow) ((Pg.getD i 0) * baseMVA) 2))
    let qAny ← pyAnyRows qcost
    let d2f_dQg2 := if qAny then
        let ipolq := (List.range qcost.length).filter
          (fun i => decide ((qcost.getD i dRow).model = POLYNOMIAL))
        assignAt (List.replicate ng 0) ipolq
          (ipolq.map (fun i =>
            baseMVA ^ 2 * polycost (qcost.getD i dRow) ((Qg.getD i 0) * baseMVA) 2))
      else List.replicate ng 0
    let d2fM := diagScatter nxyz (iPg ++ iQg) (d2f_dPg2 ++ d2f_dQg2)
    match cp.N, gc with
    | GCostN.sparseM _, some g =>
        Except.ok { f := f, df := df, d2f := some (rMatAdd d2fM (gcHessTerm g cp.H)) }
    | GCostN.sparseM _, none =>
        Except.error (PyErr.unboundLocal "AA")
    | _, _ =>
        Except.ok { f := f, df := df, d2f := some d2fM }

/-! ## Lagrangian Hessian Assembler: `opf_hessfcn`

The module `opf_fcns.py` imports only the bare names listed below
(lines 7-44); the body of `opf_hessfcn` also references the module-level
names `np` (lines 100, 114, 123, ...), `IDX` (line 108 onward) and
`c_sparse` (line 136 onward), none of which are bound anywhere in the
module, so every execution raises a `NameError` at line 100 (when `il`
defaults) or line 108 and never reaches line 111.  The arithmetic of the
unreachable remainder is embedded separately below
(`hessSplitMultipliers`, `hess_d2f_block`, reading `np.*`, `c_sparse` and
`IDX.*` as the numpy/scipy/index values the bare imports alias). -/

/-- The module-level names bound by the import statements of
`opf_fcns.py` (lines 7-44). -/
def opfFcnsBoundNames : List String :=
  ["array", "zeros", "ones", "exp", "arange", "r_", "find",
   "vstack", "hstack", "issparse", "sparse", "conj", "Inf", "lil_matrix",
   "dot", "polycost", "totcost", "feval", "makeSbus",
   "d2Sbus_dV2", "dSbus_dV", "dIbr_dV", "d2AIbr_dV2", "d2ASbr_dV2",
   "dSbr_dV", "dAbr_dV", "opf_costfcn", "opf_consfcn",
   "PG", "QG", "GEN_BUS", "F_BUS", "T_BUS", "RATE_A", "MODEL", "POLYNOMIAL"]

/-- Resolution of a module-level name in `opf_fcns.py`: unbound names raise
`NameError`. -/
def resolveGlobal (s : String) : Except PyErr Unit :=
  if opfFcnsBoundNames.contains s then Except.ok () else Except.error (PyErr.nameError s)

/-- Embedding of `opf_hessfcn(x, lmbda, om, Ybus, Yf, Yt, ppopt, il, cost_mult)`
(opf_fcns.py lines 47-258).  Lines 84-105 unpack data without touching an
unbound name; line 100 (taken when `il` is not supplied) evaluates
`np.arange` and line 108 evaluates `IDX.gen.PG`, and neither `np` nor `IDX`
is bound in the module, so the call always terminates in a `NameError`
before assigning to the gen table or producing a Hessian.  The success
value is therefore never produced; the remainder of the body is embedded
separately (see the module comment above). -/
def opf_hessfcn (x : QVec) (lmbda : Lmbda) (om : OPFModel) (Ybus Yf Yt : CMat)
    (flowLim : ℕ) (il? : Option (List ℕ)) (cost_mult : ℚ) : Except PyErr Unit := do
  let ppc := om.ppc
  let _baseMVA := ppc.baseMVA
  let _nb := ppc.bus.length
  let _nl := ppc.branch.length
  let _ng := ppc.gen.length
  let _nxyz := x.length
  let _Pg := pySlice x om.vv.i1Pg om.vv.iNPg
  let _Qg := pySlice x om.vv.i1Qg om.vv.iNQg
  match il? with
  | none => resolveGlobal "np"
  | some _ => Except.ok ()
  resolveGlobal "IDX"

/-- The multiplier-splitting step of `opf_hessfcn` (lines 166-168):
`nlam = int(len(lmbda['eqnonlin']) / 2)`, `lamP = lmbda['eqnonlin'][:nlam]`,
`lamQ = lmbda['eqnonlin'][nlam:nlam + nlam]`.  No dimension check is
performed: an odd-length vector loses its last entry. -/
def hessSplitMultipliers (eqnonlin : QVec) : QVec × QVec :=
  let nlam := eqnonlin.length / 2
  (eqnonlin.take nlam, (eqnonlin.drop nlam).take nlam)

/-- The cost-Hessian block `d2f` assembled by `opf_hessfcn` (lines 116-163,
reading the unbound `np.*` / `c_sparse` as their evident numpy/scipy
referents): polynomial P-cost curvature on the Pg diagonal, polynomial
Q-cost curvature (rows `arange(ng, 2*ng)` of gencost) on the Qg diagonal,
the generalized-cost term when `issparse(N) and N.nnz > 0`, all scaled by
`cost_mult`. -/
def hess_d2f_block (x : QVec) (om : OPFModel) (cost_mult : ℚ) : QMat :=
  let ppc := om.ppc
  let baseMVA := ppc.baseMVA
  let gencost := ppc.gencost
  let cp := om.cp
  let vv := om.vv
  let ng := ppc.gen.length
  let nxyz := x.length
  let Pg := pySlice x vv.i1Pg vv.iNPg
  let Qg := pySlice x vv.i1Qg vv.iNQg
  let dRow : GenCostRow := ⟨0, 0, 0, 0, []⟩
  let pcost := gencost.take ng
  let qcost := if ng < gencost.length then (gencost.drop ng).take ng else []
  let ipolp := (List.range pcost.length).filter
    (fun i => decide ((pcost.getD i dRow).model = POLYNOMIAL))
  let d2f_dPg2 := assignAt (List.replicate ng 0) ipolp
    (ipolp.map (fun i =>
      baseMVA ^ 2 * polycost (pcost.getD i dRow) ((Pg.getD i 0) * baseMVA) 2))
  let d2f_dQg2 := if npAnyRows qcost then
      let ipolq := (List.range qcost.length).filter
        (fun i => decide ((qcost.getD i dRow).model = POLYNOMIAL))
      assignAt (List.replicate ng 0) ipolq
        (ipolq.map (fun i =>
          baseMVA ^ 2 * polycost (qcost.getD i dRow) ((Qg.getD i 0) * baseMVA) 2))
    else List.replicate ng 0
  let i := idxRange vv.i1Pg vv.iNPg ++ idxRange vv.i1Qg vv.iNQg
  let d2f := diagScatter nxyz i (d2f_dPg2 ++ d2f_dQg2)
  let d2f := match cp.N with
    | GCostN.sparseM Nm =>
        if 0 < nnzM Nm then rMatAdd d2f (gcHessTerm (gcCompute x cp Nm) cp.H)
        else d2f
    | _ => d2f
  rScale cost_mult d2f

/-! ## Callback registry: `add_userfcn`

The module never binds `logger` (no `import logging` and no `logger = ...`
appears in `opf_fcns.py`), so both `logger.debug` call sites — line 695
(invalid stage name) and line 704 (duplicate registration without
`allow_multiple`) — raise `NameError: name 'logger' is not defined` and
abort the call before the `append` on line 710. -/

/-- One registered callback: the function (identified by its name) and the
optional `args` payload (the `args` key is only set when the supplied list
is nonempty, lines 711-712). -/
structure UFEntry where
  fcn : String
  args : Option (List ℚ)
deriving DecidableEq

/-- The case dict as `add_userfcn` sees it: only the optional `userfcn`
field matters, an insertion-ordered map from stage name to callback list. -/
structure PPCU where
  userfcn : Option (List (String × List UFEntry))
deriving DecidableEq

/-- The five valid callback stages (line 694). -/
def validStages : List String :=
  ["ext2int", "formulation", "int2ext", "printpf", "savecase"]

/-- Look up a stage's callback list. -/
def lookupStage (u : List (String × List UFEntry)) (stage : String) :
    Option (List UFEntry) :=
  (u.find? (fun p => p.1 == stage)).map Prod.snd

/-- Replace (or insert at the end) a stage's callback list. -/
def setStage (u : List (String × List UFEntry)) (stage : String)
    (lst : List UFEntry) : List (String × List UFEntry) :=
  if u.any (fun p => p.1 == stage) then
    u.map (fun p => if p.1 == stage then (p.1, lst) else p)
  else u ++ [(stage, lst)]

/-- Embedding of `add_userfcn(ppc, stage, fcn, args, allow_multiple)`
(opf_fcns.py lines 611-714).  An invalid stage name, or a duplicate
registration without `allow_multiple`, reaches a `logger.debug` call and
dies with `NameError` on the unbound `logger` before anything is appended;
otherwise the entry is appended to the stage's list (created on demand). -/
def add_userfcn (ppc : PPCU) (stage fcn : String) (args? : Option (List ℚ))
    (allow_multiple : Bool) : Except PyErr PPCU :=
  let args := args?.getD []
  let entry : UFEntry := { fcn := fcn, args := if 0 < args.length then some args else none }
  if validStages.contains stage then
    match ppc.userfcn with
    | some u =>
      match lookupStage u stage with
      | some lst =>
          if ¬ allow_multiple ∧ lst.any (fun e => e.fcn == fcn) then
            Except.error (PyErr.nameError "logger")
          else
            Except.ok { userfcn := some (setStage u stage (lst ++ [entry])) }
      | none =>
          Except.ok { userfcn := some (setStage u stage [entry]) }
    | none =>
        Except.ok { userfcn := some [(stage, [entry])] }
  else Except.error (PyErr.nameError "logger")

/-! ## Declarative-to-Convex Compiler: `OModel` (src/ams/opt/omodel.py) -/

/-- A symbolic constraint: name, expression string and relational type
(`'uq'` for inequality, `'eq'` for equality; the constructor default is
`'uq'`). -/
structure ConstraintS where
  name : String
  e_str : String
  type : String
deriving DecidableEq

/-- A symbolic objective: expression string and sense (`'min'` or `'max'`,
constructor default `'min'`). -/
structure ObjectiveS where
  e_str : String
  sense : String
deriving DecidableEq

/-- A compiled constraint object: the rewritten expression combined with its
relational operator (`... <= 0` or `... == 0`, omodel.py lines 272-275). -/
inductive CompiledConstr where
  | le0 (code : String)
  | eq0 (code : String)
deriving DecidableEq

/-- A compiled objective object: the rewritten expression wrapped in the
minimize/maximize selector (omodel.py lines 245-248). -/
inductive CompiledObj where
  | minimizeE (code : String)
  | maximizeE (code : String)
deriving DecidableEq

/-- Sequential substitution of the registered symbol map into an expression
string (the `re.sub` loop of `parse_obj` / `parse_constr`, with patterns
taken as the literal registered names). -/
def applySubMap (sm : List (String × String)) (s : String) : String :=
  sm.foldl (fun acc p => acc.replace p.1 p.2) s

/-- Embedding of `OModel.parse_constr(constr, sub_map)` (omodel.py lines
255-279).  `objSense` is `self.routine.obj.sense`, which the (mistakenly
copied) error message interpolates. -/
def parse_constr (constr : ConstraintS) (sm : List (String × String))
    (objSense : String) : Except PyErr CompiledConstr :=
  let code := applySubMap sm constr.e_str
  if constr.type = "uq" then Except.ok (CompiledConstr.le0 code)
  else if constr.type = "eq" then Except.ok (CompiledConstr.eq0 code)
  else Except.error (PyErr.valueError
    ("Objective sense " ++ objSense ++ " is not supported."))

/-- Embedding of `OModel.parse_obj(obj, sub_map)` (omodel.py lines 228-253). -/
def parse_obj (obj : ObjectiveS) (sm : List (String × String)) :
    Except PyErr CompiledObj :=
  let code := applySubMap sm obj.e_str
  if obj.sense = "min" then Except.ok (CompiledObj.minimizeE code)
  else if obj.sense = "max" then Except.ok (CompiledObj.maximizeE code)
  else Except.error (PyErr.valueError
    ("Objective sense " ++ obj.sense ++ " is not supported."))

/-- The constraint-parsing loop of `OModel.setup` (omodel.py lines 173-176):
each constraint is parsed in order and stored under its name; the first
formulation error aborts the setup. -/
def parseConstrs (sm : List (String × String)) (objSense : String) :
    List ConstraintS → Except PyErr (List (String × CompiledConstr))
  | [] => Except.ok []
  | c :: rest => do
    let pc ← parse_constr c sm objSense
    let r ← parseConstrs sm objSense rest
    Except.ok ((c.name, pc) :: r)

/-- The compiled problem handle built at the end of `OModel.setup`
(omodel.py lines 183-187): the parsed constraints and objective bound into
the solver problem object. -/
structure OModelCompiled where
  constrs : List (String × CompiledConstr)
  obj : CompiledObj
deriving DecidableEq

/-- Embedding of `OModel.setup` (omodel.py lines 157-188), restricted to
the constraint/objective compilation path: constraints are parsed in order,
then the objective, and only then is the problem handle produced. -/
def setup (constrs : List ConstraintS) (obj : ObjectiveS)
    (sm : List (String × String)) : Except PyErr OModelCompiled := do
  let cs ← parseConstrs sm obj.sense constrs
  let ob ← parse_obj obj sm
  Except.ok { constrs := cs, obj := ob }

/-! ## Spec-side flow-limit definitions

Definitions following the words of spec 4.3, used to state the refinement
claims about the inequality residual: the squared limit with a zero rating
treated as unconstrained, and the per-branch squared flow metric selected
by the flow-limit mode. -/

/-- Spec 4.3: the squared branch limit in p.u.; "branches with a zero limit
are treated as unconstrained (`limit = +∞`)". -/
def specLimitSq (baseMVA rate : ℚ) : ERat :=
  if rate = 0 then ERat.pinf else ERat.fin ((rate / baseMVA) ^ 2)

/-- The complex power flowing out of endpoint `endb[k]` on constrained
branch `k`: `V[end] * conj((Y*V)[k])`. -/
def specFlowS (V : CVec) (Y : CMat) (endb : List ℕ) (k : ℕ) : CQ :=
  V.getD (endb.getD k 0) CQ.zero * CQ.cconj (cdot (Y.getD k []) V)

/-- Spec 4.3: the squared flow metric of constrained branch `k` — current
magnitude (mode 2), real power (mode 1), or apparent power (otherwise). -/
def specMetricSq (mode : ℕ) (V : CVec) (Y : CMat) (endb : List ℕ) (k : ℕ) : ℚ :=
  if mode = 2 then CQ.normSq (cdot (Y.getD k []) V)
  else if mode = 1 then (specFlowS V Y endb k).re ^ 2
  else CQ.normSq (specFlowS V Y endb k)

/-- Spec 4.3: one side (from or to) of the inequality residual vector —
"for each flow-limited branch, `metric² − limit²`". -/
def specHSide (mode : ℕ) (baseMVA : ℚ) (V : CVec) (Y : CMat)
    (bIl : List BranchR) (endb : List ℕ) : List ERat :=
  (List.range bIl.length).map (fun k =>
    esubFin (specMetricSq mode V Y endb k)
      (specLimitSq baseMVA (bIl.getD k ⟨0, 0, 0⟩).rateA))

/-- One side of the residual exactly as `opf_consfcn` computes it
(source form of lines 337-355, per side). -/
def consHSide (mode : ℕ) (baseMVA : ℚ) (V : CVec) (Y : CMat)
    (bIl : List BranchR) (ends : BranchR → ℕ) : List ERat :=
  let flow_max : List ERat := bIl.map (fun b =>
    let fm := (b.rateA / baseMVA) ^ 2
    if fm = 0 then ERat.pinf else ERat.fin fm)
  if mode = 2 then
    List.zipWith (fun c fm => esubFin (CQ.normSq c) fm) (cMatVec Y V) flow_max
  else
    let S := List.zipWith (fun b c => V.getD (ends b) CQ.zero * CQ.cconj c)
      bIl (cMatVec Y V)
    if mode = 1 then
      List.zipWith (fun s fm => esubFin (s.re ^ 2) fm) S flow_max
    else
      List.zipWith (fun s fm => esubFin (CQ.normSq s) fm) S flow_max

/-- Classification of the error classes: numpy/scipy dimension mismatches
surface as `ValueError`; name-resolution failures are not dimension
errors. -/
def isDimensionError : PyErr → Bool
  | PyErr.valueError _ => true
  | _ => false

instance {ε α : Type} [DecidableEq ε] [DecidableEq α] : DecidableEq (Except ε α) := fun a b =>
  match a, b with
  | Except.error e, Except.error f => decidable_of_iff (e = f) (by simp)
  | Except.error _, Except.ok _ => isFalse (by simp)
  | Except.ok _, Except.error _ => isFalse (by simp)
  | Except.ok u, Except.ok v => decidable_of_iff (u = v) (by simp)

/-! ## Concrete fixtures for witnesses and counterexamples

`env0` instantiates the abstract transcendental primitives; it agrees with
the exact values at the points the fixtures use (`cos 0 = 1`, `sin 0 = 0`,
`abs 1 = 1`). -/

/-- Concrete numeric environment. -/
def env0 : NumEnv := ⟨fun _ => 1, fun _ => 0, fun _ => 1⟩

/-- Empty generalized-cost parameters (`N` is `None`). -/
def cpNone : CostParams := ⟨GCostN.absent, [], [], [], [], [], []⟩

/-- Generalized-cost parameters whose `N` is a stored sparse matrix with no
nonzero entries (`issparse(N)` holds, `N.nnz == 0`). -/
def cpZeroN : CostParams :=
  ⟨GCostN.sparseM [[0, 0, 0, 0]], [0], [[0]], [1], [0], [0], [1]⟩

/-- Index map for a 1-bus, 1-generator state `[Va, Vm, Pg, Qg]`. -/
def vvA : VarIdx := ⟨0, 1, 1, 2, 2, 3, 3, 4, 4, 4⟩

/-- Index map for a 1-bus, 0-generator state `[Va, Vm]`. -/
def vvB : VarIdx := ⟨0, 1, 1, 2, 2, 2, 2, 2, 2, 2⟩

/-- 1-bus model with an all-zero sparse generalized-cost matrix. -/
def omA : OPFModel :=
  ⟨⟨1, [⟨0, 0⟩], [⟨0, 0, 0⟩], [], [⟨2, 0, 0, 1, [0]⟩]⟩, vvA, cpZeroN, 0⟩

/-- 1-bus, 1-generator model with two polynomial gencost rows: row 0 (P
cost) identically zero, row 1 (Q cost) the pure quadratic `q²`. -/
def omB : OPFModel :=
  ⟨⟨1, [⟨0, 0⟩], [⟨0, 0, 0⟩], [],
    [⟨2, 0, 0, 3, [0, 0, 0]⟩, ⟨2, 0, 0, 3, [1, 0, 0]⟩]⟩, vvA, cpNone, 0⟩

/-- State for `omB`: `Va = 0`, `Vm = 1`, `Pg = 0`, `Qg = 5`. -/
def xB : QVec := [0, 1, 0, 5]

/-- 1-bus model whose gen table holds a nonzero dispatch (PG = QG = 7). -/
def omC : OPFModel := ⟨⟨1, [⟨0, 0⟩], [⟨0, 7, 7⟩], [], []⟩, vvA, cpNone, 0⟩

/-- 1-bus, 1-branch model whose branch has a zero `RATE_A` rating. -/
def omD : OPFModel := ⟨⟨1, [⟨0, 0⟩], [], [⟨0, 0, 0⟩], []⟩, vvB, cpNone, 0⟩

/-- 1-bus, 1-branch model whose branch is rated `RATE_A = 1`. -/
def omE : OPFModel := ⟨⟨1, [⟨0, 0⟩], [], [⟨0, 0, 1⟩], []⟩, vvB, cpNone, 0⟩

/-- State for the 1-bus networks: `Va = 0`, `Vm = 1`, so `V = [1 + 0j]`. -/
def xC : QVec := [0, 1]

/-- Bus admittance matrix fixture. -/
def YbusC : CMat := [[⟨0, 0⟩]]

/-- From-end admittance fixture `Yf = [[1j]]`: the branch flow
`Sf = V[0] * conj(Yf·V) = -1j` has nonzero reactive part. -/
def YfC : CMat := [[⟨0, 1⟩]]

/-- To-end admittance fixture `Yt = [[0]]`. -/
def YtC : CMat := [[⟨0, 0⟩]]

/-- Case dict with one callback `mycb` registered for `formulation`. -/
def ppcU0 : PPCU := ⟨some [("formulation", [⟨"mycb", none⟩])]⟩

/-! ## List access helper lemmas -/

theorem getD_map_of_lt {α β : Type} {f : α → β} {l : List α} {k : ℕ}
    (h : k < l.length) (d : β) (d' : α) : (l.map f).getD k d = f (l.getD k d') := by
  simp [List.getD_eq_getElem?_getD, List.getElem?_map, List.getElem?_eq_getElem h]

theorem getD_range_map {β : Type} {f : ℕ → β} {n k : ℕ} (h : k < n) (d : β) :
    ((List.range n).map f).getD k d = f k := by
  have hk : k < (List.range n).length := by simpa using h
  rw [getD_map_of_lt hk d 0]
  simp [List.getD_eq_getElem?_getD, List.getElem?_eq_getElem hk]

theorem getD_append_of_lt {α : Type} {l₁ l₂ : List α} {k : ℕ}
    (h : k < l₁.length) (d : α) : (l₁ ++ l₂).getD k d = l₁.getD k d := by
  simp [List.getD_eq_getElem?_getD, List.getElem?_append, h]

theorem getD_append_right_add {α : Type} (l₁ l₂ : List α) (k : ℕ) (d : α) :
    (l₁ ++ l₂).getD (l₁.length + k) d = l₂.getD k d := by
  simp [List.getD_eq_getElem?_getD, List.getElem?_append_right (Nat.le_add_right _ _),
    Nat.add_sub_cancel_left]

theorem zipWith_eq_range_map {α β γ : Type} (f : α → β → γ) (d₁ : α) (d₂ : β) :
    ∀ (n : ℕ) (l₁ : List α) (l₂ : List β), l₁.length = n → l₂.length = n →
      List.zipWith f l₁ l₂ =
        (List.range n).map (fun k => f (l₁.getD k d₁) (l₂.getD k d₂))
  | 0, l₁, l₂, h₁, h₂ => by
      rw [List.length_eq_zero] at h₁ h₂
      subst h₁; subst h₂; rfl
  | n + 1, l₁, l₂, h₁, h₂ => by
      match l₁, l₂ with
      | a :: as, b :: bs =>
        rw [List.range_succ_eq_map]
        simp only [List.zipWith_cons_cons, List.map_cons, List.map_map]
        refine congrArg₂ _ rfl ?_
        have ih := zipWith_eq_range_map f d₁ d₂ n as bs
          (by simpa using h₁) (by simpa using h₂)
        rw [ih]
        rfl

theorem flowmax_eq_specLimitSq {base rate : ℚ} (hbase : base ≠ 0) :
    (if ((rate / base) ^ 2 : ℚ) = 0 then ERat.pinf else ERat.fin ((rate / base) ^ 2)) =
      specLimitSq base rate := by
  have h2 : ((rate / base) ^ 2 = 0) ↔ rate = 0 := by
    rw [pow_eq_zero_iff (two_ne_zero), div_eq_zero_iff]
    simp [hbase]
  by_cases hr : rate = 0
  · simp [specLimitSq, hr, h2]
  · simp [specLimitSq, hr, h2]

theorem consfcn_h_split (env : NumEnv) (x : QVec) (om : OPFModel)
    (Ybus Yf Yt : CMat) (mode : ℕ) (ilv : List ℕ) :
    (opf_consfcn env x om Ybus Yf Yt mode (some ilv)).h =
      consHSide mode om.ppc.baseMVA (stateV env x om.vv) Yf
        (ilv.map (fun k => om.ppc.branch.getD k ⟨0, 0, 0⟩)) BranchR.fbus ++
      consHSide mode om.ppc.baseMVA (stateV env x om.vv) Yt
        (ilv.map (fun k => om.ppc.branch.getD k ⟨0, 0, 0⟩)) BranchR.tbus := by
  by_cases h0 : 0 < ilv.length
  · by_cases h2 : mode = 2
    · simp [opf_consfcn, consHSide, h0, h2]
    · by_cases h1 : mode = 1
      · simp [opf_consfcn, consHSide, h0, h2, h1]
      · simp [opf_consfcn, consHSide, h0, h2, h1]
  · have : ilv = [] := by
      rw [← List.length_eq_zero]; omega
    subst this
    simp [opf_consfcn, consHSide]

theorem consHSide_eq_spec (mode : ℕ) (base : ℚ) (V : CVec) (Y : CMat)
    (bIl : List BranchR) (ends : BranchR → ℕ)
    (hbase : base ≠ 0) (hY : Y.length = bIl.length) :
    consHSide mode base V Y bIl ends = specHSide mode base V Y bIl (bIl.map ends) := by
  have hYV : (cMatVec Y V).length = bIl.length := by simp [cMatVec, hY]
  have hgetYV : ∀ k, k < bIl.length →
      (cMatVec Y V).getD k CQ.zero = cdot (Y.getD k []) V := by
    intro k hk
    have hk' : k < Y.length := by omega
    simp only [cMatVec]
    exact getD_map_of_lt hk' CQ.zero []
  have hgetFM : ∀ k, k < bIl.length →
      (bIl.map (fun b =>
        if ((b.rateA / base) ^ 2 : ℚ) = 0 then ERat.pinf
        else ERat.fin ((b.rateA / base) ^ 2))).getD k ERat.pinf
      = specLimitSq base ((bIl.getD k ⟨0, 0, 0⟩).rateA) := by
    intro k hk
    rw [getD_map_of_lt hk ERat.pinf ⟨0, 0, 0⟩]
    exact flowmax_eq_specLimitSq hbase
  have hEnds : ∀ k, k < bIl.length →
      (bIl.map ends).getD k 0 = ends (bIl.getD k ⟨0, 0, 0⟩) :=
    fun k hk => getD_map_of_lt hk 0 ⟨0, 0, 0⟩
  have hS : (List.zipWith (fun b c => V.getD (ends b) CQ.zero * CQ.cconj c)
      bIl (cMatVec Y V)) =
      (List.range bIl.length).map (fun k => specFlowS V Y (bIl.map ends) k) := by
    rw [zipWith_eq_range_map (fun b c => V.getD (ends b) CQ.zero * CQ.cconj c)
      ⟨0, 0, 0⟩ CQ.zero bIl.length bIl _ rfl hYV]
    refine List.map_congr_left ?_
    intro k hk
    rw [List.mem_range] at hk
    rw [hgetYV k hk]
    simp only [specFlowS, hEnds k hk]
  by_cases h2 : mode = 2
  · subst h2
    simp only [consHSide, specHSide, if_pos rfl]
    rw [zipWith_eq_range_map (fun c fm => esubFin (CQ.normSq c) fm) CQ.zero ERat.pinf
      bIl.length (cMatVec Y V) _ hYV (by simp)]
    refine List.map_congr_left ?_
    intro k hk
    rw [List.mem_range] at hk
    rw [hgetYV k hk, hgetFM k hk]
    simp [specMetricSq]
  · by_cases h1 : mode = 1
    · subst h1
      simp only [consHSide, specHSide, if_neg h2]
      rw [if_pos trivial, hS]
      rw [zipWith_eq_range_map (fun s fm => esubFin (s.re ^ 2) fm) CQ.zero ERat.pinf
        bIl.length _ _ (by simp) (by simp)]
      refine List.map_congr_left ?_
      intro k hk
      rw [List.mem_range] at hk
      rw [getD_range_map hk, hgetFM k hk]
      simp [specMetricSq]
    · simp only [consHSide, specHSide, if_neg h2]
      rw [if_neg h1, hS]
      rw [zipWith_eq_range_map (fun s fm => esubFin (CQ.normSq s) fm) CQ.zero ERat.pinf
        bIl.length _ _ (by simp) (by simp)]
      refine List.map_congr_left ?_
      intro k hk
      rw [List.mem_range] at hk
      rw [getD_range_map hk, hgetFM k hk]
      simp [specMetricSq, h2, h1]

/-! ## Claim theorems -/

/-- C4: every invocation of `opf_hessfcn` fails with a name-resolution
error before producing a result, because its body references the names
`np` (line 100, taken when `il` is not supplied) and `IDX` (line 108),
neither of which is bound by the module's imports (only bare numpy/scipy
names and column constants are imported). -/
theorem c4_hessfcn_always_nameError (x : QVec) (lmbda : Lmbda) (om : OPFModel)
    (Ybus Yf Yt : CMat) (flowLim : ℕ) (il? : Option (List ℕ)) (cost_mult : ℚ) :
    ∃ s, opf_hessfcn x lmbda om Ybus Yf Yt flowLim il? cost_mult
        = Except.error (PyErr.nameError s) ∧ (s = "np" ∨ s = "IDX") := by
  cases il? with
  | none => exact ⟨"np", rfl, Or.inl rfl⟩
  | some l => exact ⟨"IDX", rfl, Or.inr rfl⟩

/-- C1 counterexample: calling the Lagrangian Hessian assembler with an
odd-length equality-multiplier vector (`[1, 2, 3]`) does not fail with a
dimension error — it fails with the name-resolution error on the unbound
`IDX`, which is not a dimension error — and the multiplier-splitting step
as written (lines 166-168) silently truncates `[1, 2, 3]` to the halves
`([1], [2])`, dropping the last entry without any error. -/
theorem c1_counterexample :
    opf_hessfcn [0, 0, 0, 0, 0, 0] ⟨[1, 2, 3], []⟩ omA [] [] [] 0 (some [0]) 1
      = Except.error (PyErr.nameError "IDX") ∧
    isDimensionError (PyErr.nameError "IDX") = false ∧
    hessSplitMultipliers [1, 2, 3] = ([1], [2]) :=
  ⟨rfl, rfl, by decide⟩

/-- C1 (amended): a call with an odd-length equality-multiplier vector
fails, but with a name-resolution error (unbound `IDX`), not a dimension
error; and the multiplier-splitting step as written performs no dimension
check — it keeps the first `2⌊len/2⌋` entries (split into equal active and
reactive halves) and silently drops the last one. -/
theorem c1_amended (x : QVec) (lmbda : Lmbda) (om : OPFModel)
    (Ybus Yf Yt : CMat) (flowLim : ℕ) (ilv : List ℕ) (cost_mult : ℚ)
    (hodd : lmbda.eqnonlin.length % 2 = 1) :
    (opf_hessfcn x lmbda om Ybus Yf Yt flowLim (some ilv) cost_mult
        = Except.error (PyErr.nameError "IDX") ∧
      isDimensionError (PyErr.nameError "IDX") = false) ∧
    (hessSplitMultipliers lmbda.eqnonlin).1 ++ (hessSplitMultipliers lmbda.eqnonlin).2
      = lmbda.eqnonlin.take (lmbda.eqnonlin.length - 1) ∧
    (hessSplitMultipliers lmbda.eqnonlin).1.length
        + (hessSplitMultipliers lmbda.eqnonlin).2.length
      = lmbda.eqnonlin.length - 1 := by
  refine ⟨⟨rfl, rfl⟩, ?_, ?_⟩
  · simp only [hessSplitMultipliers]
    have e1 : (lmbda.eqnonlin.drop (lmbda.eqnonlin.length / 2)).take (lmbda.eqnonlin.length / 2)
        = (lmbda.eqnonlin.take (lmbda.eqnonlin.length / 2 + lmbda.eqnonlin.length / 2)).drop
            (lmbda.eqnonlin.length / 2) :=
      List.take_drop _ _ _
    have e2 : lmbda.eqnonlin.take (lmbda.eqnonlin.length / 2)
        = (lmbda.eqnonlin.take (lmbda.eqnonlin.length / 2 + lmbda.eqnonlin.length / 2)).take
            (lmbda.eqnonlin.length / 2) := by
      rw [List.take_take]
      congr 1
      omega
    rw [e1]
    conv_lhs => rw [e2]
    rw [List.take_append_drop]
    congr 1
    omega
  · simp only [hessSplitMultipliers, List.length_take, List.length_drop]
    omega

/-- C1 amended witness: the concrete odd-length vector `[1, 2, 3]`. -/
theorem c1_amended_witness :
    ([1, 2, 3] : QVec).length % 2 = 1 ∧
    ((opf_hessfcn [0, 0, 0, 0, 0, 0] ⟨[1, 2, 3], []⟩ omA [] [] [] 0 (some [0]) 1
        = Except.error (PyErr.nameError "IDX") ∧
      isDimensionError (PyErr.nameError "IDX") = false) ∧
    (hessSplitMultipliers [1, 2, 3]).1 ++ (hessSplitMultipliers [1, 2, 3]).2
      = ([1, 2, 3] : QVec).take (([1, 2, 3] : QVec).length - 1) ∧
    (hessSplitMultipliers [1, 2, 3]).1.length + (hessSplitMultipliers [1, 2, 3]).2.length
      = ([1, 2, 3] : QVec).length - 1) :=
  ⟨by decide,
   c1_amended [0, 0, 0, 0, 0, 0] ⟨[1, 2, 3], []⟩ omA [] [] [] 0 [0] 1 (by decide)⟩

/-- C2 counterexample: re-registering the already-registered callback
`mycb` for stage `formulation` without the override does fail fast and
leaves the list unchanged, but the error raised is the name-resolution
error on the unbound `logger` — its payload is `logger`, not the name of
the offending callback, so the failure does not identify the offending
name as the claim requires. -/
theorem c2_counterexample :
    add_userfcn ppcU0 "formulation" "mycb" none false
      = Except.error (PyErr.nameError "logger") ∧
    "logger" ≠ "mycb" := by
  refine ⟨rfl, by decide⟩

/-- C2 (amended): duplicate registration of a callback for the same valid
stage without the override fails fast — before the append, so the callback
list is left unchanged — but with a `NameError` on the unbound `logger`
that does not identify the offending callback. -/
theorem c2_amended (ppc : PPCU) (stage fcn : String) (args? : Option (List ℚ))
    (u : List (String × List UFEntry)) (lst : List UFEntry)
    (hstage : validStages.contains stage = true)
    (hu : ppc.userfcn = some u)
    (hlst : lookupStage u stage = some lst)
    (hdup : lst.any (fun e => e.fcn == fcn) = true) :
    add_userfcn ppc stage fcn args? false = Except.error (PyErr.nameError "logger") := by
  unfold add_userfcn
  rw [hu]
  simp [hstage, hlst, hdup]

/-- C2 amended witness: the concrete duplicate registration of `mycb`. -/
theorem c2_amended_witness :
    validStages.contains "formulation" = true ∧
    ppcU0.userfcn = some [("formulation", [⟨"mycb", none⟩])] ∧
    lookupStage [("formulation", [⟨"mycb", none⟩])] "formulation" = some [⟨"mycb", none⟩] ∧
    ([(⟨"mycb", none⟩ : UFEntry)].any (fun e => e.fcn == "mycb") = true) ∧
    add_userfcn ppcU0 "formulation" "mycb" none false
      = Except.error (PyErr.nameError "logger") :=
  ⟨by decide, by decide, by decide, by decide,
   c2_amended ppcU0 "formulation" "mycb" none [("formulation", [⟨"mycb", none⟩])]
     [⟨"mycb", none⟩] (by decide) (by decide) (by decide) (by decide)⟩

/-- C10: the compiler maps the declared relational type `eq` to
`expression == 0` and `uq` to `expression <= 0`; any other relational type
makes `parse_constr` raise a formulation error (`ValueError`), any
objective sense other than `min`/`max` makes `parse_obj` raise a
formulation error, and in either case `setup` produces no compiled
problem handle. -/
theorem c10_compiler (c : ConstraintS) (o : ObjectiveS)
    (sm : List (String × String)) (cs : List ConstraintS) (osense : String) :
    (c.type = "eq" →
      parse_constr c sm osense = Except.ok (CompiledConstr.eq0 (applySubMap sm c.e_str))) ∧
    (c.type = "uq" →
      parse_constr c sm osense = Except.ok (CompiledConstr.le0 (applySubMap sm c.e_str))) ∧
    (c.type ≠ "eq" → c.type ≠ "uq" →
      ∃ msg, parse_constr c sm osense = Except.error (PyErr.valueError msg)) ∧
    (o.sense = "min" →
      parse_obj o sm = Except.ok (CompiledObj.minimizeE (applySubMap sm o.e_str))) ∧
    (o.sense = "max" →
      parse_obj o sm = Except.ok (CompiledObj.maximizeE (applySubMap sm o.e_str))) ∧
    (o.sense ≠ "min" → o.sense ≠ "max" →
      ∃ msg, parse_obj o sm = Except.error (PyErr.valueError msg)) ∧
    (c ∈ cs → c.type ≠ "eq" → c.type ≠ "uq" →
      ∀ m, setup cs o sm ≠ Except.ok m) ∧
    (o.sense ≠ "min" → o.sense ≠ "max" →
      ∀ m, setup cs o sm ≠ Except.ok m) := by
  have hpc : ∀ (c' : ConstraintS), c'.type ≠ "eq" → c'.type ≠ "uq" →
      parse_constr c' sm o.sense = Except.error (PyErr.valueError
        ("Objective sense " ++ o.sense ++ " is not supported.")) := by
    intro c' he hu
    simp [parse_constr, he, hu]
  have hcs : ∀ (l : List ConstraintS), c ∈ l → c.type ≠ "eq" → c.type ≠ "uq" →
      ∀ r, parseConstrs sm o.sense l ≠ Except.ok r := by
    intro l
    induction l with
    | nil => intro h; exact absurd h (List.not_mem_nil c)
    | cons a as ih =>
      intro hmem he hu r hok
      rcases List.mem_cons.mp hmem with hca | hca
      · subst hca
        rw [parseConstrs, hpc c he hu] at hok
        exact Except.noConfusion hok
      · rw [parseConstrs] at hok
        cases hpa : parse_constr a sm o.sense with
        | error e => rw [hpa] at hok; exact Except.noConfusion hok
        | ok pa =>
          rw [hpa] at hok
          cases hrest : parseConstrs sm o.sense as with
          | error e => rw [hrest] at hok; exact Except.noConfusion hok
          | ok rs => exact ih hca he hu rs hrest
  refine ⟨?_, ?_, ?_, ?_, ?_, ?_, ?_, ?_⟩
  · intro h
    by_cases huq : c.type = "uq"
    · rw [huq] at h; exact absurd h (by decide)
    · simp [parse_constr, h, huq]
  · intro h; simp [parse_constr, h]
  · intro he hu
    exact ⟨"Objective sense " ++ osense ++ " is not supported.",
      by simp [parse_constr, he, hu]⟩
  · intro h; simp [parse_obj, h]
  · intro h
    by_cases hmin : o.sense = "min"
    · rw [hmin] at h; exact absurd h (by decide)
    · simp [parse_obj, h, hmin]
  · intro hm hx
    exact ⟨"Objective sense " ++ o.sense ++ " is not supported.",
      by simp [parse_obj, hm, hx]⟩
  · intro hmem he hu m hok
    rw [setup] at hok
    cases hcsr : parseConstrs sm o.sense cs with
    | error e => rw [hcsr] at hok; exact Except.noConfusion hok
    | ok r => exact hcs cs hmem he hu r hcsr
  · intro hm hx m hok
    rw [setup] at hok
    cases hcsr : parseConstrs sm o.sense cs with
    | error e => rw [hcsr] at hok; exact Except.noConfusion hok
    | ok r =>
      rw [hcsr] at hok
      have : parse_obj o sm = Except.error (PyErr.valueError
          ("Objective sense " ++ o.sense ++ " is not supported.")) := by
        simp [parse_obj, hm, hx]
      rw [this] at hok
      exact Except.noConfusion hok

/-- C10 witness: a concrete `ge`-typed constraint is rejected before any
handle is produced, while `eq`/`uq` constraints and `min` objectives
compile. -/
theorem c10_compiler_witness :
    (parse_constr ⟨"c1", "x - 5", "eq"⟩ [] "min"
      = Except.ok (CompiledConstr.eq0 "x - 5")) ∧
    (∃ msg, parse_constr ⟨"c2", "x", "ge"⟩ [] "min"
      = Except.error (PyErr.valueError msg)) ∧
    (∀ m, setup [⟨"c2", "x", "ge"⟩] ⟨"x", "min"⟩ [] ≠ Except.ok m) :=
  ⟨(c10_compiler ⟨"c1", "x - 5", "eq"⟩ ⟨"x", "min"⟩ [] [] "min").1 rfl,
   (c10_compiler ⟨"c2", "x", "ge"⟩ ⟨"x", "min"⟩ [] [] "min").2.2.1
     (by decide) (by decide),
   (c10_compiler ⟨"c2", "x", "ge"⟩ ⟨"x", "min"⟩ [] [⟨"c2", "x", "ge"⟩] "min").2.2.2.2.2.2.1
     (by decide) (by decide) (by decide)⟩

/-- C3 (code bug): with a generalized-cost matrix `N` that is a stored
sparse matrix with zero nonzeros, `opf_costfcn` returns a zero-contribution
scalar and gradient when no Hessian is requested, but the Hessian request
crashes: the guard on line 564 (`N is not None and issparse(N)`) omits the
`N.nnz > 0` check under which the block locals were assigned, so line 565
hits the unassigned local `AA` instead of contributing zero. -/
theorem c3_zero_rows_hessian_crash :
    opf_costfcn [0, 1, 0, 0] omA false
      = Except.ok ⟨0, [0, 0, 0, 0], none⟩ ∧
    opf_costfcn [0, 1, 0, 0] omA true
      = Except.error (PyErr.unboundLocal "AA") := by
  constructor <;> with_unfolding_all decide

/-- C6 (code bug): at `cost_mult = 1` the cost-Hessian block assembled by
`opf_hessfcn` (which takes the Q-cost rows `arange(ng, 2*ng)` of gencost)
differs from the Hessian `d2f` returned by
`opf_costfcn(x, om, return_hessian=True)`, whose slice `gencost[ng+1:2*ng]`
drops row `ng`: with one generator and a pure quadratic Q-cost row the
block has curvature 2 on the Qg diagonal while `opf_costfcn` returns an
all-zero Hessian. -/
theorem c6_cost_hessian_mismatch :
    hess_d2f_block xB omB 1
      = [[0, 0, 0, 0], [0, 0, 0, 0], [0, 0, 0, 0], [0, 0, 0, 2]] ∧
    opf_costfcn xB omB true
      = Except.ok ⟨25, [0, 0, 0, 10],
          some [[0, 0, 0, 0], [0, 0, 0, 0], [0, 0, 0, 0], [0, 0, 0, 0]]⟩ ∧
    ([[0, 0, 0, 0], [0, 0, 0, 0], [0, 0, 0, 0], [0, 0, 0, 2]] : QMat)
      ≠ [[0, 0, 0, 0], [0, 0, 0, 0], [0, 0, 0, 0], [0, 0, 0, 0]] := by
  refine ⟨by with_unfolding_all decide, by with_unfolding_all decide, by decide⟩

/-- C5 counterexample: `opf_consfcn` does not leave the network arrays
unchanged — it overwrites the PG/QG columns of the gen table with the
state-vector generation blocks, so the case dict after the call differs
from the one before. -/
theorem c5_counterexample :
    (opf_consfcn env0 [0, 1, 3, 4] omC YbusC [] [] 0 (some [])).ppcOut
      ≠ omC.ppc := by
  with_unfolding_all decide

/-- C5 (amended): `opf_consfcn` leaves the bus, branch and gencost tables
and the system base unchanged and its outputs are a function of its
explicit inputs only, but it writes the state-vector generation blocks
(scaled by `baseMVA`) into the PG/QG columns of the gen table in place;
`opf_hessfcn` fails on an unbound name before reaching its gen-table
write, so it mutates nothing. -/
theorem c5_amended (env : NumEnv) (x : QVec) (om : OPFModel)
    (Ybus Yf Yt : CMat) (flowLim : ℕ) (il? : Option (List ℕ))
    (lmbda : Lmbda) (cost_mult : ℚ) :
    (opf_consfcn env x om Ybus Yf Yt flowLim il?).ppcOut.bus = om.ppc.bus ∧
    (opf_consfcn env x om Ybus Yf Yt flowLim il?).ppcOut.branch = om.ppc.branch ∧
    (opf_consfcn env x om Ybus Yf Yt flowLim il?).ppcOut.gencost = om.ppc.gencost ∧
    (opf_consfcn env x om Ybus Yf Yt flowLim il?).ppcOut.baseMVA = om.ppc.baseMVA ∧
    (opf_consfcn env x om Ybus Yf Yt flowLim il?).ppcOut.gen
      = writeGenPQ om.ppc.gen (pySlice x om.vv.i1Pg om.vv.iNPg)
          (pySlice x om.vv.i1Qg om.vv.iNQg) om.ppc.baseMVA ∧
    (∃ s, opf_hessfcn x lmbda om Ybus Yf Yt flowLim il? cost_mult
        = Except.error (PyErr.nameError s)) := by
  refine ⟨rfl, rfl, rfl, rfl, rfl, ?_⟩
  cases il? with
  | none => exact ⟨"np", rfl⟩
  | some l => exact ⟨"IDX", rfl⟩

/-- C7: for every state vector and every flow-limited branch, the
inequality residual returned by `opf_consfcn` is `metric² − limit²`, where
the metric is the current magnitude (mode 2), real power (mode 1) or
apparent power (otherwise) of the from/to side of the branch, and a branch
whose `RATE_A` rating is zero has its limit replaced by `+∞`, so its
residual is `−∞` and never binding (nonpositive). -/
theorem c7_h_metric (env : NumEnv) (x : QVec) (om : OPFModel)
    (Ybus Yf Yt : CMat) (mode : ℕ) (ilv : List ℕ)
    (hbase : om.ppc.baseMVA ≠ 0)
    (hYf : Yf.length = ilv.length) (hYt : Yt.length = ilv.length) :
    (opf_consfcn env x om Ybus Yf Yt mode (some ilv)).h =
      specHSide mode om.ppc.baseMVA (stateV env x om.vv) Yf
        (ilv.map (fun k => om.ppc.branch.getD k ⟨0, 0, 0⟩))
        ((ilv.map (fun k => om.ppc.branch.getD k ⟨0, 0, 0⟩)).map BranchR.fbus) ++
      specHSide mode om.ppc.baseMVA (stateV env x om.vv) Yt
        (ilv.map (fun k => om.ppc.branch.getD k ⟨0, 0, 0⟩))
        ((ilv.map (fun k => om.ppc.branch.getD k ⟨0, 0, 0⟩)).map BranchR.tbus) ∧
    (∀ k, k < ilv.length →
      ((ilv.map (fun k => om.ppc.branch.getD k ⟨0, 0, 0⟩)).getD k ⟨0, 0, 0⟩).rateA = 0 →
      (opf_consfcn env x om Ybus Yf Yt mode (some ilv)).h.getD k (ERat.fin 0) = ERat.ninf ∧
      (opf_consfcn env x om Ybus Yf Yt mode (some ilv)).h.getD (ilv.length + k) (ERat.fin 0)
        = ERat.ninf ∧
      eratNonpos ((opf_consfcn env x om Ybus Yf Yt mode (some ilv)).h.getD k (ERat.fin 0))
        = true) := by
  have hbl : (ilv.map (fun k => om.ppc.branch.getD k ⟨0, 0, 0⟩)).length = ilv.length := by
    simp
  have hh : (opf_consfcn env x om Ybus Yf Yt mode (some ilv)).h =
      specHSide mode om.ppc.baseMVA (stateV env x om.vv) Yf
        (ilv.map (fun k => om.ppc.branch.getD k ⟨0, 0, 0⟩))
        ((ilv.map (fun k => om.ppc.branch.getD k ⟨0, 0, 0⟩)).map BranchR.fbus) ++
      specHSide mode om.ppc.baseMVA (stateV env x om.vv) Yt
        (ilv.map (fun k => om.ppc.branch.getD k ⟨0, 0, 0⟩))
        ((ilv.map (fun k => om.ppc.branch.getD k ⟨0, 0, 0⟩)).map BranchR.tbus) := by
    rw [consfcn_h_split env x om Ybus Yf Yt mode ilv]
    rw [consHSide_eq_spec mode om.ppc.baseMVA (stateV env x om.vv) Yf _ BranchR.fbus hbase
      (by rw [hYf, hbl])]
    rw [consHSide_eq_spec mode om.ppc.baseMVA (stateV env x om.vv) Yt _ BranchR.tbus hbase
      (by rw [hYt, hbl])]
  refine ⟨hh, ?_⟩
  intro k hk hrate
  have hlenf : (specHSide mode om.ppc.baseMVA (stateV env x om.vv) Yf
      (ilv.map (fun k => om.ppc.branch.getD k ⟨0, 0, 0⟩))
      ((ilv.map (fun k => om.ppc.branch.getD k ⟨0, 0, 0⟩)).map BranchR.fbus)).length
      = ilv.length := by
    simp [specHSide]
  have hkb : k < (ilv.map (fun k => om.ppc.branch.getD k ⟨0, 0, 0⟩)).length := by omega
  have ef : (specHSide mode om.ppc.baseMVA (stateV env x om.vv) Yf
      (ilv.map (fun k => om.ppc.branch.getD k ⟨0, 0, 0⟩))
      ((ilv.map (fun k => om.ppc.branch.getD k ⟨0, 0, 0⟩)).map BranchR.fbus)).getD k (ERat.fin 0)
      = ERat.ninf := by
    unfold specHSide
    rw [getD_range_map hkb, hrate]
    simp [specLimitSq, esubFin]
  have et : (specHSide mode om.ppc.baseMVA (stateV env x om.vv) Yt
      (ilv.map (fun k => om.ppc.branch.getD k ⟨0, 0, 0⟩))
      ((ilv.map (fun k => om.ppc.branch.getD k ⟨0, 0, 0⟩)).map BranchR.tbus)).getD k (ERat.fin 0)
      = ERat.ninf := by
    unfold specHSide
    rw [getD_range_map hkb, hrate]
    simp [specLimitSq, esubFin]
  have e1 : (opf_consfcn env x om Ybus Yf Yt mode (some ilv)).h.getD k (ERat.fin 0)
      = ERat.ninf := by
    rw [hh, getD_append_of_lt (by omega) (ERat.fin 0)]
    exact ef
  have e2 : (opf_consfcn env x om Ybus Yf Yt mode (some ilv)).h.getD (ilv.length + k)
      (ERat.fin 0) = ERat.ninf := by
    rw [hh]
    have : ilv.length + k = (specHSide mode om.ppc.baseMVA (stateV env x om.vv) Yf
        (ilv.map (fun k => om.ppc.branch.getD k ⟨0, 0, 0⟩))
        ((ilv.map (fun k => om.ppc.branch.getD k ⟨0, 0, 0⟩)).map BranchR.fbus)).length + k := by
      omega
    rw [this, getD_append_right_add]
    exact et
  exact ⟨e1, e2, by rw [e1]; rfl⟩

/-- C7 witness: the 1-bus fixture with a zero-rated branch in apparent-power
mode. -/
theorem c7_h_metric_witness :
    (opf_consfcn env0 xC omD YbusC YfC YtC 0 (some [0])).h =
      specHSide 0 1 (stateV env0 xC vvB) YfC [⟨0, 0, 0⟩] [0] ++
      specHSide 0 1 (stateV env0 xC vvB) YtC [⟨0, 0, 0⟩] [0] ∧
    (opf_consfcn env0 xC omD YbusC YfC YtC 0 (some [0])).h.getD 0 (ERat.fin 0)
      = ERat.ninf :=
  ⟨(c7_h_metric env0 xC omD YbusC YfC YtC 0 [0]
      (by with_unfolding_all decide) rfl rfl).1,
   ((c7_h_metric env0 xC omD YbusC YfC YtC 0 [0]
      (by with_unfolding_all decide) rfl rfl).2 0 (by decide)
      (by with_unfolding_all decide)).1⟩

theorem metricSq_apparent_eq_real (V : CVec) (Y : CMat) (endb : List ℕ) (k : ℕ)
    (him : (specFlowS V Y endb k).im = 0) :
    specMetricSq 0 V Y endb k = specMetricSq 1 V Y endb k := by
  have h0 : specMetricSq 0 V Y endb k = CQ.normSq (specFlowS V Y endb k) := by
    simp [specMetricSq]
  have h1 : specMetricSq 1 V Y endb k = (specFlowS V Y endb k).re ^ 2 := by
    simp [specMetricSq]
  rw [h0, h1]
  simp only [CQ.normSq]
  rw [him]
  ring

theorem metricSq_apparent_ne_real (V : CVec) (Y : CMat) (endb : List ℕ) (k : ℕ)
    (him : (specFlowS V Y endb k).im ≠ 0) :
    specMetricSq 0 V Y endb k ≠ specMetricSq 1 V Y endb k := by
  intro hms
  have h0 : specMetricSq 0 V Y endb k = CQ.normSq (specFlowS V Y endb k) := by
    simp [specMetricSq]
  have h1 : specMetricSq 1 V Y endb k = (specFlowS V Y endb k).re ^ 2 := by
    simp [specMetricSq]
  rw [h0, h1] at hms
  simp only [CQ.normSq, pow_two] at hms
  have him2 : (specFlowS V Y endb k).im * (specFlowS V Y endb k).im = 0 := by
    linarith
  exact him (mul_self_eq_zero.mp him2)

/-- C9 (amended): with every flow-limited branch's complex flows having
zero reactive part on both the from and the to side, apparent-power mode
and real-power mode produce the same inequality residual vector; and
whenever some branch with a nonzero `RATE_A` rating carries a flow with
nonzero reactive part — on either its from side or its to side — the two
modes produce different residual vectors.  (A zero-rated branch
contributes `-∞` in both modes, so a nonzero reactive flow on it alone
does not separate them — see the counterexample.) -/
theorem c9_amended (env : NumEnv) (x : QVec) (om : OPFModel)
    (Ybus Yf Yt : CMat) (ilv : List ℕ)
    (hbase : om.ppc.baseMVA ≠ 0)
    (hYf : Yf.length = ilv.length) (hYt : Yt.length = ilv.length) :
    ((∀ k, k < ilv.length →
        (specFlowS (stateV env x om.vv) Yf
          ((ilv.map (fun j => om.ppc.branch.getD j ⟨0, 0, 0⟩)).map BranchR.fbus) k).im = 0 ∧
        (specFlowS (stateV env x om.vv) Yt
          ((ilv.map (fun j => om.ppc.branch.getD j ⟨0, 0, 0⟩)).map BranchR.tbus) k).im = 0) →
      (opf_consfcn env x om Ybus Yf Yt 0 (some ilv)).h
        = (opf_consfcn env x om Ybus Yf Yt 1 (some ilv)).h) ∧
    (∀ k, k < ilv.length →
      ((specFlowS (stateV env x om.vv) Yf
          ((ilv.map (fun j => om.ppc.branch.getD j ⟨0, 0, 0⟩)).map BranchR.fbus) k).im ≠ 0 ∨
        (specFlowS (stateV env x om.vv) Yt
          ((ilv.map (fun j => om.ppc.branch.getD j ⟨0, 0, 0⟩)).map BranchR.tbus) k).im ≠ 0) →
      ((ilv.map (fun j => om.ppc.branch.getD j ⟨0, 0, 0⟩)).getD k ⟨0, 0, 0⟩).rateA ≠ 0 →
      (opf_consfcn env x om Ybus Yf Yt 0 (some ilv)).h
        ≠ (opf_consfcn env x om Ybus Yf Yt 1 (some ilv)).h) := by
  have hbl : (ilv.map (fun j => om.ppc.branch.getD j ⟨0, 0, 0⟩)).length = ilv.length := by
    simp
  have hsplit0 := consfcn_h_split env x om Ybus Yf Yt 0 ilv
  have hsplit1 := consfcn_h_split env x om Ybus Yf Yt 1 ilv
  have hf0 := consHSide_eq_spec 0 om.ppc.baseMVA (stateV env x om.vv) Yf
    (ilv.map (fun j => om.ppc.branch.getD j ⟨0, 0, 0⟩)) BranchR.fbus hbase (by rw [hYf, hbl])
  have ht0 := consHSide_eq_spec 0 om.ppc.baseMVA (stateV env x om.vv) Yt
    (ilv.map (fun j => om.ppc.branch.getD j ⟨0, 0, 0⟩)) BranchR.tbus hbase (by rw [hYt, hbl])
  have hf1 := consHSide_eq_spec 1 om.ppc.baseMVA (stateV env x om.vv) Yf
    (ilv.map (fun j => om.ppc.branch.getD j ⟨0, 0, 0⟩)) BranchR.fbus hbase (by rw [hYf, hbl])
  have ht1 := consHSide_eq_spec 1 om.ppc.baseMVA (stateV env x om.vv) Yt
    (ilv.map (fun j => om.ppc.branch.getD j ⟨0, 0, 0⟩)) BranchR.tbus hbase (by rw [hYt, hbl])
  have hA : (opf_consfcn env x om Ybus Yf Yt 0 (some ilv)).h =
      specHSide 0 om.ppc.baseMVA (stateV env x om.vv) Yf
        (ilv.map (fun j => om.ppc.branch.getD j ⟨0, 0, 0⟩))
        ((ilv.map (fun j => om.ppc.branch.getD j ⟨0, 0, 0⟩)).map BranchR.fbus) ++
      specHSide 0 om.ppc.baseMVA (stateV env x om.vv) Yt
        (ilv.map (fun j => om.ppc.branch.getD j ⟨0, 0, 0⟩))
        ((ilv.map (fun j => om.ppc.branch.getD j ⟨0, 0, 0⟩)).map BranchR.tbus) := by
    rw [hsplit0, hf0, ht0]
  have hR : (opf_consfcn env x om Ybus Yf Yt 1 (some ilv)).h =
      specHSide 1 om.ppc.baseMVA (stateV env x om.vv) Yf
        (ilv.map (fun j => om.ppc.branch.getD j ⟨0, 0, 0⟩))
        ((ilv.map (fun j => om.ppc.branch.getD j ⟨0, 0, 0⟩)).map BranchR.fbus) ++
      specHSide 1 om.ppc.baseMVA (stateV env x om.vv) Yt
        (ilv.map (fun j => om.ppc.branch.getD j ⟨0, 0, 0⟩))
        ((ilv.map (fun j => om.ppc.branch.getD j ⟨0, 0, 0⟩)).map BranchR.tbus) := by
    rw [hsplit1, hf1, ht1]
  have hlf0 : (specHSide 0 om.ppc.baseMVA (stateV env x om.vv) Yf
      (ilv.map (fun j => om.ppc.branch.getD j ⟨0, 0, 0⟩))
      ((ilv.map (fun j => om.ppc.branch.getD j ⟨0, 0, 0⟩)).map BranchR.fbus)).length
      = ilv.length := by simp [specHSide]
  have hlf1 : (specHSide 1 om.ppc.baseMVA (stateV env x om.vv) Yf
      (ilv.map (fun j => om.ppc.branch.getD j ⟨0, 0, 0⟩))
      ((ilv.map (fun j => om.ppc.branch.getD j ⟨0, 0, 0⟩)).map BranchR.fbus)).length
      = ilv.length := by simp [specHSide]
  constructor
  · intro him
    rw [hA, hR]
    refine congrArg₂ (· ++ ·) ?_ ?_
    · unfold specHSide
      refine List.map_congr_left ?_
      intro k hk
      rw [List.mem_range, hbl] at hk
      rw [metricSq_apparent_eq_real _ _ _ _ ((him k hk).1)]
    · unfold specHSide
      refine List.map_congr_left ?_
      intro k hk
      rw [List.mem_range, hbl] at hk
      rw [metricSq_apparent_eq_real _ _ _ _ ((him k hk).2)]
  · intro k hk him hrate heq
    rw [hA, hR] at heq
    have hkb : k < (ilv.map (fun j => om.ppc.branch.getD j ⟨0, 0, 0⟩)).length := by omega
    have hlim : specLimitSq om.ppc.baseMVA
        ((ilv.map (fun j => om.ppc.branch.getD j ⟨0, 0, 0⟩)).getD k ⟨0, 0, 0⟩).rateA
        = ERat.fin ((((ilv.map (fun j => om.ppc.branch.getD j ⟨0, 0, 0⟩)).getD k
            ⟨0, 0, 0⟩).rateA / om.ppc.baseMVA) ^ 2) := by
      unfold specLimitSq
      rw [if_neg hrate]
    rcases him with himf | himt
    · have hgd := congrArg (fun l => l.getD k (ERat.fin 0)) heq
      simp only at hgd
      rw [getD_append_of_lt (by omega) (ERat.fin 0),
        getD_append_of_lt (by omega) (ERat.fin 0)] at hgd
      unfold specHSide at hgd
      rw [getD_range_map hkb, getD_range_map hkb, hlim] at hgd
      simp only [esubFin, ERat.fin.injEq] at hgd
      exact metricSq_apparent_ne_real (stateV env x om.vv) Yf
        ((ilv.map (fun j => om.ppc.branch.getD j ⟨0, 0, 0⟩)).map BranchR.fbus) k himf
        (sub_left_inj.mp hgd)
    · have hgd := congrArg (fun l => l.getD (ilv.length + k) (ERat.fin 0)) heq
      simp only at hgd
      have eL : ilv.length + k = (specHSide 0 om.ppc.baseMVA (stateV env x om.vv) Yf
          (ilv.map (fun j => om.ppc.branch.getD j ⟨0, 0, 0⟩))
          ((ilv.map (fun j => om.ppc.branch.getD j ⟨0, 0, 0⟩)).map BranchR.fbus)).length
          + k := by omega
      rw [eL, getD_append_right_add] at hgd
      have eR : (specHSide 0 om.ppc.baseMVA (stateV env x om.vv) Yf
          (ilv.map (fun j => om.ppc.branch.getD j ⟨0, 0, 0⟩))
          ((ilv.map (fun j => om.ppc.branch.getD j ⟨0, 0, 0⟩)).map BranchR.fbus)).length
          + k = (specHSide 1 om.ppc.baseMVA (stateV env x om.vv) Yf
          (ilv.map (fun j => om.ppc.branch.getD j ⟨0, 0, 0⟩))
          ((ilv.map (fun j => om.ppc.branch.getD j ⟨0, 0, 0⟩)).map BranchR.fbus)).length
          + k := by omega
      rw [eR, getD_append_right_add] at hgd
      unfold specHSide at hgd
      rw [getD_range_map hkb, getD_range_map hkb, hlim] at hgd
      simp only [esubFin, ERat.fin.injEq] at hgd
      exact metricSq_apparent_ne_real (stateV env x om.vv) Yt
        ((ilv.map (fun j => om.ppc.branch.getD j ⟨0, 0, 0⟩)).map BranchR.tbus) k himt
        (sub_left_inj.mp hgd)

/-- C9 counterexample: on the 1-bus fixture whose only branch has a zero
`RATE_A` rating, the from-side flow has nonzero reactive part, yet
apparent-power mode and real-power mode return identical inequality
residuals (both entries are `-∞`), contradicting the claim that the modes
differ whenever some reactive flow is nonzero. -/
theorem c9_counterexample :
    (specFlowS (stateV env0 xC vvB) YfC [0] 0).im ≠ 0 ∧
    (opf_consfcn env0 xC omD YbusC YfC YtC 0 (some [0])).h
      = (opf_consfcn env0 xC omD YbusC YfC YtC 1 (some [0])).h := by
  constructor
  · with_unfolding_all decide
  · with_unfolding_all decide

/-- C9 amended witness: the same network with the branch rated
`RATE_A = 1` separates the two modes. -/
theorem c9_amended_witness :
    (opf_consfcn env0 xC omE YbusC YfC YtC 0 (some [0])).h
      ≠ (opf_consfcn env0 xC omE YbusC YfC YtC 1 (some [0])).h :=
  (c9_amended env0 xC omE YbusC YfC YtC [0]
      (by with_unfolding_all decide) rfl rfl).2 0 (by decide)
    (Or.inl (by with_unfolding_all decide)) (by with_unfolding_all decide)

/-- C8: with an empty set of flow-limited branches `opf_consfcn` returns an
empty inequality residual `h` and no inequality Jacobian (`dh = None`),
while the equality residual `g` still has one active and one reactive
entry per bus (length `2·nb`, the active block first) and the equality
Jacobian `dg` is still produced with `len(x)` rows and `2·nb` columns. -/
theorem c8_no_flow_limits (env : NumEnv) (x : QVec) (om : OPFModel)
    (Ybus Yf Yt : CMat) (flowLim : ℕ)
    (hVm : (pySlice x om.vv.i1Vm om.vv.iNVm).length = om.ppc.bus.length)
    (hVa : (pySlice x om.vv.i1Va om.vv.iNVa).length = om.ppc.bus.length)
    (hYb : Ybus.length = om.ppc.bus.length) :
    (opf_consfcn env x om Ybus Yf Yt flowLim (some [])).h = [] ∧
    (opf_consfcn env x om Ybus Yf Yt flowLim (some [])).dh = none ∧
    (opf_consfcn env x om Ybus Yf Yt flowLim (some [])).g.length
      = 2 * om.ppc.bus.length ∧
    (opf_consfcn env x om Ybus Yf Yt flowLim (some [])).dg.length = x.length ∧
    (∀ row ∈ (opf_consfcn env x om Ybus Yf Yt flowLim (some [])).dg,
      row.length = 2 * om.ppc.bus.length) := by
  have hV : (stateV env x om.vv).length = om.ppc.bus.length := by
    simp [stateV, List.length_zipWith, hVm, hVa]
  refine ⟨by simp [opf_consfcn], by simp [opf_consfcn], ?_, ?_, ?_⟩
  · simp only [opf_consfcn]
    simp [makeSbus, cMatVec, List.length_zipWith, hV, hYb]
    omega
  · simp [opf_consfcn, transposeTo]
  · intro row hrow
    simp only [opf_consfcn, transposeTo] at hrow
    simp only [List.mem_map, List.mem_range] at hrow
    obtain ⟨j, hj, hr⟩ := hrow
    rw [← hr]
    simp

/-- C8 witness: the 1-bus, 1-branch fixture called with `il = []`. -/
theorem c8_no_flow_limits_witness :
    ((pySlice xC vvB.i1Vm vvB.iNVm).length = 1 ∧
      (pySlice xC vvB.i1Va vvB.iNVa).length = 1 ∧ YbusC.length = 1) ∧
    (opf_consfcn env0 xC omE YbusC YfC YtC 0 (some [])).h = [] ∧
    (opf_consfcn env0 xC omE YbusC YfC YtC 0 (some [])).dh = none ∧
    (opf_consfcn env0 xC omE YbusC YfC YtC 0 (some [])).g.length = 2 ∧
    (opf_consfcn env0 xC omE YbusC YfC YtC 0 (some [])).dg.length = 2 ∧
    (∀ row ∈ (opf_consfcn env0 xC omE YbusC YfC YtC 0 (some [])).dg,
      row.length = 2) :=
  ⟨⟨by decide, by decide, by decide⟩,
   c8_no_flow_limits env0 xC omE YbusC YfC YtC 0 (by decide) (by decide) (by decide)⟩
